import Mathlib

/- Verification development for the preprocessing transformation pipeline of
   the data-analysis dashboard (`pages/preprocessing.py`, `index.py`).
   The embedding covers: the Table data model, the JSON split-orient snapshot
   codec (`df.to_json(date_format='iso', orient='split')` /
   `pd.read_json(..., orient='split')` as used by `parse_data`), the transform
   registry semantics behind each button of the `process_data` callback, and
   the train/test split of the `handle_downloads` callback.
   Machine floats are modelled as exact rationals; the one irrational
   quantity in the pipeline (the standard deviation used by standard scaling)
   is modelled by an integer-square-root approximation, and no theorem below
   depends on scaled values. -/

/- The library marks the rational-arithmetic primitives irreducible, which
stops `decide`'s evaluation of concrete tables; proofs still go through the
kernel unchanged. -/
attribute [local semireducible] Rat.mul Rat.add Rat.sub Rat.inv Rat.ofScientific

/-- Semantic type of a Table column (the pandas dtype, abstracted to the
three kinds the spec distinguishes). -/
inductive DType
  | numeric
  | text
  | temporal
deriving DecidableEq, Repr

/-- One cell of a table: a numeric value (int64/float64, modelled as ℚ),
a text value, a temporal value (epoch milliseconds), or the missing marker
(NaN/NaT/None). -/
inductive Cell
  | num (q : ℚ)
  | str (s : String)
  | time (t : ℤ)
  | null
deriving DecidableEq, Repr

/-- A named, typed column holding a list of cells (rows, in order). -/
structure Column where
  name : String
  dtype : DType
  cells : List Cell
deriving DecidableEq, Repr

/-- A Table: ordered list of named columns (a pandas DataFrame; the default
RangeIndex is not represented). -/
structure Table where
  cols : List Column
deriving DecidableEq, Repr

/-- A JSON value as it appears inside the serialized snapshot's data array. -/
inductive JVal
  | jnum (q : ℚ)
  | jstr (s : String)
  | jnull
deriving DecidableEq, Repr

/-- The serialized snapshot: the `orient='split'` JSON document
`{"columns": [...], "index": [...], "data": [[...], ...]}` (the row-label
index is a plain range and is not represented). -/
structure Snap where
  columns : List String
  data : List (List JVal)
deriving DecidableEq, Repr

/-- Column names of a table, in order. -/
def Table.names (t : Table) : List String :=
  t.cols.map (fun c => c.name)

/-- Number of rows (length of the first column; every well-formed table has
all columns of this common length). -/
def Table.rowCount (t : Table) : Nat :=
  match t.cols with
  | [] => 0
  | c :: _ => c.cells.length

/-- Look up a column by name (first match, as pandas `df[name]` on a
duplicate-free frame). -/
def Table.getCol (t : Table) (n : String) : Option Column :=
  t.cols.find? (fun c => c.name == n)

/-- Does a cell carry a value of the given dtype (the missing marker is
allowed in every column)? -/
def Cell.matchesDType : Cell → DType → Bool
  | .null, _ => true
  | .num _, .numeric => true
  | .str _, .text => true
  | .time _, .temporal => true
  | _, _ => false

/-- Well-formedness of a column inside a table with `n` rows. -/
def Column.WF (n : Nat) (c : Column) : Prop :=
  c.cells.length = n ∧ ∀ x ∈ c.cells, x.matchesDType c.dtype

instance (n : Nat) (c : Column) : Decidable (Column.WF n c) := by
  unfold Column.WF; infer_instance

/-- Well-formedness of a table: rectangular, with cells matching the column
dtype. -/
def Table.WF (t : Table) : Prop :=
  ∀ c ∈ t.cols, Column.WF t.rowCount c

instance (t : Table) : Decidable (Table.WF t) := by
  unfold Table.WF; infer_instance

/-- The numeric values of a column's cells, nulls skipped (what pandas
reductions such as `mean`/`median` operate on). -/
def colNums (cells : List Cell) : List ℚ :=
  cells.filterMap (fun c => match c with | .num q => some q | _ => none)

/-- The non-null cells of a column. -/
def nonNullCells (cells : List Cell) : List Cell :=
  cells.filter (fun c => !(c == Cell.null))

/-- Does the first list start with the second? (kernel-computable) -/
def listBeginsWith : List Char → List Char → Bool
  | _, [] => true
  | [], _ :: _ => false
  | a :: as, b :: bs => a == b && listBeginsWith as bs

/-- `str.startswith` over the character list. -/
def strStarts (s p : String) : Bool :=
  listBeginsWith s.toList p.toList

/-- `str.endswith` over the character list. -/
def strEnds (s p : String) : Bool :=
  listBeginsWith s.toList.reverse p.toList.reverse

/-- ASCII lower-casing of one character. -/
def lowerChar (c : Char) : Char :=
  if 'A' ≤ c ∧ c ≤ 'Z' then Char.ofNat (c.toNat + 32) else c

/-- `str.lower` (ASCII). -/
def strLower (s : String) : String :=
  String.mk (s.toList.map lowerChar)

/-- `str.strip`: remove surrounding whitespace. -/
def strTrim (s : String) : String :=
  String.mk (((s.toList.dropWhile Char.isWhitespace).reverse.dropWhile
    Char.isWhitespace).reverse)

/-- Characters that can occur in a string NumPy's `astype(float)` may accept
(digits, sign, decimal point, exponent marker, underscore separators). -/
def floatChar (c : Char) : Bool :=
  c.isDigit || c == '+' || c == '-' || c == '.' || c == '_' || c == 'e' || c == 'E'

/-- Word forms (`nan`, `inf`, ...) accepted by Python's float constructor. -/
def floatWord (s : String) : Bool :=
  let w := strLower s
  w == "nan" || w == "inf" || w == "infinity" || w == "-nan" || w == "-inf"
    || w == "-infinity" || w == "+nan" || w == "+inf" || w == "+infinity"

/-- Parse an unsigned run of decimal digits. -/
def digitsVal : List Char → Option ℕ
  | [] => none
  | cs => cs.foldl (fun acc c => match acc with
      | none => none
      | some n => if c.isDigit then some (n * 10 + (c.toNat - '0'.toNat)) else none)
      (some 0)

/-- Parse a plain decimal numeral `[sign]digits[.digits]` to a rational.
This is the conservative core of the float syntax accepted by
`astype('float64')` (which additionally accepts exponents, underscore
separators and special words; see `floatCastable`). -/
def parseRat (s : String) : Option ℚ :=
  let cs := s.toList
  let (sign, body) : ℚ × List Char := match cs with
    | '-' :: rest => (-1, rest)
    | '+' :: rest => (1, rest)
    | rest => (1, rest)
  let intPart := body.takeWhile (fun c => c.isDigit)
  let rest := body.dropWhile (fun c => c.isDigit)
  match rest with
  | [] =>
      match digitsVal intPart with
      | some n => some (sign * n)
      | none => none
  | '.' :: fracPart =>
      if fracPart.all (fun c => c.isDigit) then
        match digitsVal (intPart ++ fracPart) with
        | some n => some (sign * ((n : ℚ) / ((10 : ℚ) ^ fracPart.length)))
        | none => none
      else none
  | _ => none

/-- Word forms that `astype('float64')` turns into NaN. -/
def nanWord (s : String) : Bool :=
  strLower s == "nan" || strLower s == "+nan" || strLower s == "-nan"

/-- The float cast of a single string cell, as performed column-wise by
`read_json`'s dtype inference (`astype('float64')` on an object column):
a decimal numeral becomes that number, a NaN word becomes the missing
marker. IEEE infinities are outside the rational model and are treated as
unparsable here; no theorem below touches a column containing them (the
round-trip hypotheses use the wider `floatCastable`). -/
def parseFloatCell (s : String) : Option Cell :=
  match parseRat s with
  | some q => some (.num q)
  | none => if nanWord s then some .null else none

/-- Overapproximation of "this string can be cast by `astype('float64')`":
anything `parseFloatCell` accepts, or a string whose characters are all
float-like (or non-ASCII, since Python's float constructor also accepts
Unicode digits and spaces), or a special float word. A string that is not
`floatCastable` certainly makes the NumPy cast fail. -/
def floatCastable (s : String) : Bool :=
  (parseFloatCell s).isSome
    || ((strTrim s).toList.all (fun c => floatChar c || c.toNat ≥ 128)
        && !(strTrim s == ""))
    || floatWord (strTrim s)

/-- Left-pad a numeral with zeros to the given width. -/
def padZeros (width : Nat) (n : Nat) : String :=
  let s := toString n
  String.mk (List.replicate (width - s.length) '0') ++ s

/-- Civil date from a day count since 1970-01-01 (Howard Hinnant's
`civil_from_days` algorithm, as used by date libraries). -/
def civilFromDays (days : ℤ) : ℤ × ℤ × ℤ :=
  let z := days + 719468
  let era := z.fdiv 146097
  let doe := z - era * 146097
  let yoe := (doe - doe.fdiv 1460 + doe.fdiv 36524 - doe.fdiv 146096).fdiv 365
  let y := yoe + era * 400
  let doy := doe - (365 * yoe + yoe.fdiv 4 - yoe.fdiv 100)
  let mp := (5 * doy + 2).fdiv 153
  let d := doy - (153 * mp + 2).fdiv 5 + 1
  let m := mp + (if mp < 10 then 3 else -9)
  (y + (if m ≤ 2 then 1 else 0), m, d)

/-- Day count since 1970-01-01 of a civil date (`days_from_civil`). -/
def daysFromCivil (y m d : ℤ) : ℤ :=
  let y2 := y - (if m ≤ 2 then 1 else 0)
  let era := y2.fdiv 400
  let yoe := y2 - era * 400
  let doy := (153 * (m + (if m > 2 then -3 else 9)) + 2).fdiv 5 + d - 1
  let doe := yoe * 365 + yoe.fdiv 4 - yoe.fdiv 100 + doy
  era * 146097 + doe - 719468

/-- ISO-8601 rendering of an epoch-millisecond timestamp, the
`date_format='iso'` convention of `to_json`
(`YYYY-MM-DDTHH:MM:SS.mmm`). -/
def isoStr (t : ℤ) : String :=
  let ms := t.emod 86400000
  let days := (t - ms).fdiv 86400000
  let (y, m, d) := civilFromDays days
  let s := ms.fdiv 1000
  padZeros 4 y.toNat ++ "-" ++ padZeros 2 m.toNat ++ "-" ++ padZeros 2 d.toNat
    ++ "T" ++ padZeros 2 (s.fdiv 3600).toNat ++ ":"
    ++ padZeros 2 ((s.fdiv 60).emod 60).toNat ++ ":"
    ++ padZeros 2 (s.emod 60).toNat ++ "."
    ++ padZeros 3 (ms.emod 1000).toNat

/-- Parse a strict `YYYY-MM-DDTHH:MM:SS.mmm` string back to epoch
milliseconds (the inverse convention used when `read_json` converts a
date-like named column with `pd.to_datetime`; real pandas accepts more
formats, this model accepts the one this system emits). -/
def isoParse (s : String) : Option ℤ :=
  let cs := s.toList
  let grab := fun (cs : List Char) (n : Nat) => digitsVal (cs.take n)
  match grab cs 4, cs.drop 4 with
  | some y, '-' :: r1 =>
    match grab r1 2, r1.drop 2 with
    | some mo, '-' :: r2 =>
      match grab r2 2, r2.drop 2 with
      | some d, 'T' :: r3 =>
        match grab r3 2, r3.drop 2 with
        | some h, ':' :: r4 =>
          match grab r4 2, r4.drop 2 with
          | some mi, ':' :: r5 =>
            match grab r5 2, r5.drop 2 with
            | some sec, '.' :: r6 =>
              match digitsVal r6, r6.length with
              | some ms, 3 =>
                if 1 ≤ mo ∧ mo ≤ 12 ∧ 1 ≤ d ∧ d ≤ 31 ∧ h < 24 ∧ mi < 60 ∧ sec < 60 then
                  some (daysFromCivil y mo d * 86400000
                    + (((h : ℤ) * 60 + mi) * 60 + sec) * 1000 + ms)
                else none
              | _, _ => none
            | _, _ => none
          | _, _ => none
        | _, _ => none
      | _, _ => none
    | _, _ => none
  | _, _ => none

/-- Strip as many factors `p` as possible (with explicit fuel, which the
callers set to the number itself): returns the exponent removed and the
remaining cofactor. -/
def stripPow (p : ℕ) : ℕ → ℕ → ℕ × ℕ
  | 0, n => (0, n)
  | fuel+1, n =>
    if 2 ≤ p ∧ p ≤ n ∧ n % p = 0 then
      let r := stripPow p fuel (n / p)
      (r.1 + 1, r.2)
    else (0, n)

/-- The minimal number of decimal places of a rational with a terminating
decimal expansion (denominator `2^a·5^b`), else `none`. -/
def decPlaces (q : ℚ) : Option ℕ :=
  let r2 := stripPow 2 q.den q.den
  let r5 := stripPow 5 r2.2 r2.2
  if r5.2 == 1 then some (max r2.1 r5.1) else none

/-- Python's `str()` of a float value, under the exact-rational float model
(in which every IEEE double is the rational its decimal literal denotes, so
its shortest round-tripping repr is that terminating decimal itself):
fixed-point notation with at least one decimal digit (`1.0`, `2.5`,
`0.0001`) for `1e-4 ≤ |x| < 1e16`, scientific notation (`5e-05`, `1.5e+16`)
outside that range, `0.0` for zero. A rational without a terminating
decimal expansion corresponds to no IEEE double; it is rendered in fraction
form as an inert placeholder that no theorem below evaluates. -/
def pyFloatStr (q : ℚ) : String :=
  if q = 0 then "0.0" else
  match decPlaces q with
  | none => toString q.num ++ "/" ++ toString q.den
  | some k =>
    let sign := if q < 0 then "-" else ""
    let N : ℕ := q.num.natAbs * 10 ^ k / q.den
    if N < 10 ^ (k + 16) ∧ 10 ^ k ≤ N * 10000 then
      sign ++ toString (N / 10 ^ k)
        ++ "." ++ (if k = 0 then "0" else padZeros k (N % 10 ^ k))
    else
      let v := stripPow 10 N N
      let cs := (toString v.2).toList
      let e : ℤ := (cs.length + v.1 : ℤ) - 1 - k
      sign ++ String.mk (cs.take 1)
        ++ (if cs.length ≤ 1 then "" else "." ++ String.mk (cs.drop 1))
        ++ (if 0 ≤ e then "e+" ++ padZeros 2 e.toNat
            else "e-" ++ padZeros 2 (-e).toNat)

/-- Python's `str()` of a cell, as produced by `astype(str)`: floats print
through `pyFloatStr` (so a whole number carries its trailing `.0`), the
missing marker prints as the literal string `"nan"`, timestamps print in
ISO form. -/
def cellToPyStr : Cell → String
  | .num q => pyFloatStr q
  | .str s => s
  | .time t => isoStr t
  | .null => "nan"

/-- Rounding to `double_precision=10` decimal places, applied by `to_json`
before writing a float. (The exact tie-breaking rule of the C writer is
immaterial below: every theorem uses values this rounding fixes, or
exhibits one it visibly truncates.) -/
def roundDP10 (q : ℚ) : ℚ :=
  ((q * 10 ^ 10 + 1 / 2).floor : ℚ) / 10 ^ 10

/-- JSON encoding of one cell by `to_json(date_format='iso')` with its
default `double_precision=10`: numbers as JSON numbers rounded to 10
decimal places, text as JSON strings, timestamps as ISO strings, missing
markers as JSON null. -/
def encodeCell : Cell → JVal
  | .num q => .jnum (roundDP10 q)
  | .str s => .jstr s
  | .time t => .jstr (isoStr t)
  | .null => .jnull

/-- Serialize a table: `df.to_json(date_format='iso', orient='split')`.
The data array is row-major. -/
def encodeSnap (t : Table) : Snap :=
  { columns := t.names
    data := (List.range t.rowCount).map (fun i =>
      t.cols.map (fun c => encodeCell (c.cells.getD i .null))) }

/-- The date-like column-name heuristic of `read_json`'s default
`convert_dates=True` (pandas `keep_default_dates`, which lower-cases the
name before every test): names ending in `_at` or `_time`, starting with
`timestamp`, or equal to `modified`, `date`, `datetime`. -/
def dateLikeName (n : String) : Bool :=
  strEnds (strLower n) "_at" || strEnds (strLower n) "_time"
    || strStarts (strLower n) "timestamp"
    || strLower n == "modified" || strLower n == "date" || strLower n == "datetime"

/-- Is this JSON value a number or null? -/
def jIsNumOrNull : JVal → Bool
  | .jnum _ => true
  | .jnull => true
  | .jstr _ => false

/-- Is this JSON value null, or a string the float cast accepts? -/
def jIsFloatStrOrNull : JVal → Bool
  | .jstr s => (parseFloatCell s).isSome
  | .jnull => true
  | .jnum _ => false

/-- Is this JSON value null, or an ISO-parsable string? -/
def jIsIsoOrNull : JVal → Bool
  | .jstr s => (isoParse s).isSome
  | .jnull => true
  | .jnum _ => false

/-- Read back one JSON value inside a numeric column. -/
def decodeNumCell : JVal → Cell
  | .jnum q => .num q
  | _ => .null

/-- Read back one JSON string value through the float cast. -/
def decodeFloatStrCell : JVal → Cell
  | .jstr s => (parseFloatCell s).getD .null
  | _ => .null

/-- Read back one JSON value inside a date-converted column. -/
def decodeIsoCell : JVal → Cell
  | .jstr s => match isoParse s with | some t => .time t | none => .null
  | _ => .null

/-- Read back one JSON value inside an object (text) column. A raw number in
an object column stays a number (mixed object column). -/
def decodeObjCell : JVal → Cell
  | .jstr s => .str s
  | .jnull => .null
  | .jnum q => .num q

/-- Rebuild one column from its name and its JSON values, applying
`read_json`'s inference in order: default date conversion for date-like
names, then numeric dtype (raw JSON numbers), then the object→float cast,
else an object (text) column. (The epoch-number date path of
`convert_dates` is not modelled; no theorem touches date-like names.) -/
def mkCol (n : String) (jvals : List JVal) : Column :=
  if dateLikeName n && jvals.all jIsIsoOrNull then
    ⟨n, .temporal, jvals.map decodeIsoCell⟩
  else if jvals.all jIsNumOrNull then
    ⟨n, .numeric, jvals.map decodeNumCell⟩
  else if jvals.all jIsFloatStrOrNull then
    ⟨n, .numeric, jvals.map decodeFloatStrCell⟩
  else
    ⟨n, .text, jvals.map decodeObjCell⟩

/-- Deserialize a snapshot: `parse_data`, i.e.
`pd.read_json(io.StringIO(json_data), orient='split')` with its default
dtype and date inference. -/
def parse_data (s : Snap) : Table :=
  ⟨(List.range s.columns.length).map (fun j =>
    mkCol (s.columns.getD j "") (s.data.map (fun row => row.getD j .jnull)))⟩

/-- Python exceptions that can be raised inside the try-block of
`process_data` and reach its catch-all handler. -/
inductive PyErr
  | keyError (k : String)
  | valueError (m : String)
  | typeError (m : String)
deriving DecidableEq, Repr

/-- The failure alerts `process_data` renders: an inline validation message
with its CSS class (the early `return dash.no_update, html.Div(...)`
branches), or the catch-all handler's generic `Error: ...` box wrapping the
raised exception. -/
inductive FailAlert
  | validation (msg : String) (klass : String)
  | execFailure (e : PyErr)
deriving DecidableEq, Repr

/-- The missing-value treatment chosen in the radio group. -/
inductive MissAction
  | drop_rows
  | mean
  | median
  | mode
  | ffill
  | bfill
deriving DecidableEq, Repr

/-- Target of the convert-type action. -/
inductive TypeTarget
  | numeric
  | string
  | datetime
deriving DecidableEq, Repr

/-- Discretization strategy. -/
inductive DiscStrat
  | uniform
  | quantile
deriving DecidableEq, Repr

/-- Normalization method. -/
inductive NormMethod
  | minmax
  | standard
  | robust
deriving DecidableEq, Repr

/-- Encoding method. -/
inductive EncMethod
  | onehot
  | label
deriving DecidableEq, Repr

/-- Arithmetic mean (pandas `Series.mean`, computed over non-null values). -/
def meanQ (l : List ℚ) : ℚ :=
  l.sum / (l.length : ℚ)

/-- Ascending sort of a list of rationals (structural insertion sort, so
that concrete instances evaluate). -/
def sortedQ (l : List ℚ) : List ℚ :=
  List.insertionSort (fun a b => a ≤ b) l

/-- pandas `Series.median` over non-null values: middle element, or the mean
of the two middle elements. -/
def medianQ (l : List ℚ) : ℚ :=
  let s := sortedQ l
  let n := s.length
  if n % 2 = 1 then s.getD (n / 2) 0
  else (s.getD (n / 2 - 1) 0 + s.getD (n / 2) 0) / 2

/-- Smallest value of a list of rationals (0 for an empty list). -/
def minQ (l : List ℚ) : ℚ :=
  (sortedQ l).getD 0 0

/-- Largest value of a list of rationals (0 for an empty list). -/
def maxQ (l : List ℚ) : ℚ :=
  (sortedQ l).getD (l.length - 1) 0

/-- A most frequent non-null cell (`Series.mode()[0]`), none if every cell
is null. pandas breaks frequency ties by sorted order; the model takes the
first occurrence, and no theorem below inspects a tie. -/
def modeCell (cells : List Cell) : Option Cell :=
  match nonNullCells cells with
  | [] => none
  | x :: xs =>
    some ((x :: xs).foldl
      (fun b y => if (x :: xs).count y > (x :: xs).count b then y else b) x)

/-- `Series.fillna(v)`: replace every missing marker by `v`. -/
def fillConst (v : Cell) (cells : List Cell) : List Cell :=
  cells.map (fun x => if x == Cell.null then v else x)

/-- Forward-fill scan carrying the last non-null value (`Series.ffill`);
started with a null carrier, so leading nulls stay null. -/
def ffillAux : Cell → List Cell → List Cell
  | _, [] => []
  | last, x :: xs =>
    if x == Cell.null then last :: ffillAux last xs else x :: ffillAux x xs

/-- `Series.ffill`. -/
def ffillCells (cells : List Cell) : List Cell :=
  ffillAux .null cells

/-- `Series.bfill`: forward fill on the reversed row order. -/
def bfillCells (cells : List Cell) : List Cell :=
  (ffillAux .null cells.reverse).reverse

/-- Linear-interpolation quantile of a sorted non-empty list at fraction
`p ∈ [0,1]` (NumPy's default interpolation, used by `qcut` and by the
robust scaler's percentiles). -/
def quantileAt (l : List ℚ) (p : ℚ) : ℚ :=
  let n := l.length
  let pos := p * ((n : ℚ) - 1)
  let i := pos.floor.toNat
  let lo := l.getD i 0
  let hi := l.getD (i + 1) lo
  lo + (pos - (i : ℚ)) * (hi - lo)

/-- Equal-width bin index of `pd.cut(x, bins, labels=False)` for a value of
the binned column: the floor position of `x` inside `bins` equal slices of
`[mn, mx]`, clamped into `{0, …, bins-1}`. (pandas builds right-closed
intervals over a slightly padded range; the resulting index always lies in
the same clamped set, which is all the theorems below use.) -/
def cutCode (mn mx : ℚ) (bins : ℕ) (x : ℚ) : ℕ :=
  if mx ≤ mn then 0
  else min (bins - 1) (((x - mn) / (mx - mn) * (bins : ℚ)).floor.toNat)

/-- Quantile bin edges of `pd.qcut(x, q, duplicates='drop')`: the
`q+1` quantiles of the sorted non-null values, duplicate edges dropped. -/
def qcutEdges (q : ℕ) (vals : List ℚ) : List ℚ :=
  ((List.range (q + 1)).map
    (fun k : ℕ => quantileAt (sortedQ vals) ((k : ℚ) / (q : ℚ)))).dedup

/-- Bin index of a value against quantile edges: values in the right-closed
interval ending at edge `i+1` get index `i` (the lowest edge's value gets
index 0). -/
def binCode (edges : List ℚ) (x : ℚ) : ℕ :=
  (edges.filter (fun e => decide (e < x))).length - 1

/-- `pd.cut(series, bins=bins, labels=False)` over a column's cells. -/
def cutCells (bins : ℕ) (cells : List Cell) : Except PyErr (List Cell) :=
  let vals := colNums cells
  if bins == 0 then .error (.valueError "bins must be a positive integer")
  else if vals.length == 0 then
    .error (.valueError "bins must increase monotonically")
  else .ok (cells.map (fun x => match x with
    | .num v => .num ((cutCode (minQ vals) (maxQ vals) bins v : ℕ) : ℚ)
    | _ => .null))

/-- `pd.qcut(series, q=bins, labels=False, duplicates='drop')` over a
column's cells. (When deduplication leaves fewer than two edges — a
constant column — the model reports a failure; no theorem depends on that
degenerate branch.) -/
def qcutCells (q : ℕ) (cells : List Cell) : Except PyErr (List Cell) :=
  let vals := colNums cells
  if q == 0 then .error (.valueError "q must be a positive integer")
  else if vals.length == 0 then
    .error (.valueError "bins must increase monotonically")
  else
    let edges := qcutEdges q vals
    if edges.length < 2 then .error (.valueError "Bin edges must be unique")
    else .ok (cells.map (fun x => match x with
      | .num v => .num ((binCode edges v : ℕ) : ℚ)
      | _ => .null))

/-- Rational approximation of a square root (via integer square root); the
standard deviation used by `StandardScaler` is irrational in general and no
theorem below depends on standard-scaled values. -/
def sqrtQ (q : ℚ) : ℚ :=
  (Nat.sqrt (q.num.toNat * q.den) : ℚ) / (q.den : ℚ)

/-- Population variance (`ddof=0`, as `StandardScaler` uses). -/
def varQ (l : List ℚ) : ℚ :=
  meanQ (l.map (fun x => (x - meanQ l) ^ 2))

/-- sklearn's `_handle_zeros_in_scale`: a zero scale divisor becomes 1. -/
def scaleDenom (q : ℚ) : ℚ :=
  if q = 0 then 1 else q

/-- The per-value rescaling function each scaler fits on the column's
non-null values: min-max `(x-min)/(max-min)`, standard `(x-mean)/std`,
robust `(x-median)/IQR`. -/
def scaleFun (m : NormMethod) (vals : List ℚ) : ℚ → ℚ :=
  match m with
  | .minmax => fun x => (x - minQ vals) / scaleDenom (maxQ vals - minQ vals)
  | .standard => fun x => (x - meanQ vals) / scaleDenom (sqrtQ (varQ vals))
  | .robust => fun x =>
      (x - medianQ vals)
        / scaleDenom (quantileAt (sortedQ vals) (3 / 4) - quantileAt (sortedQ vals) (1 / 4))

/-- String classes of a column after `astype(str)`, as `LabelEncoder` sees
them (missing markers become the literal string "nan"). `LabelEncoder`
orders classes by sorted value; the model keeps a canonical duplicate-free
order, and no theorem below depends on which class receives which code. -/
def strClasses (cells : List Cell) : List String :=
  (cells.map cellToPyStr).dedup

/-- `LabelEncoder().fit_transform(series.astype(str))`: each cell becomes
the integer code of its string class. -/
def labelCells (cells : List Cell) : List Cell :=
  cells.map (fun x => .num ((List.indexOf (cellToPyStr x) (strClasses cells) : ℕ) : ℚ))

/-- The distinct non-null values of a column, in a canonical order
(`pd.get_dummies` sorts them; only membership and count matter below). -/
def distinctNonNull (cells : List Cell) : List Cell :=
  (nonNullCells cells).dedup

/-- `pd.get_dummies(series, prefix=name, dtype=int)`: one 0/1 column per
distinct non-null value, named `name_<value>`; a null row gets 0 in every
dummy column (`dummy_na=False`). -/
def oneHotCols (pfx : String) (cells : List Cell) : List Column :=
  (distinctNonNull cells).map (fun v =>
    ⟨pfx ++ "_" ++ cellToPyStr v, .numeric,
      cells.map (fun x => .num (if x == v then 1 else 0))⟩)

/-- Rebuild every column's dtype and cells while keeping names and column
order (the in-place column updates of the pandas code). -/
def Table.mapCells (t : Table) (g : Column → DType × List Cell) : Table :=
  ⟨t.cols.map (fun c => ⟨c.name, (g c).1, (g c).2⟩)⟩

/-- `df[n] = series`: replace an existing column in place (keeping its
position), else append a new column at the right. -/
def Table.setCol (t : Table) (n : String) (dty : DType) (cells : List Cell) : Table :=
  if n ∈ t.names then
    ⟨t.cols.map (fun c => if c.name == n then ⟨c.name, dty, cells⟩ else c)⟩
  else ⟨t.cols ++ [⟨n, dty, cells⟩]⟩

/-- Row indices at which a column is non-null. -/
def nonNullIdx (cells : List Cell) : List ℕ :=
  (List.range cells.length).filter (fun i => !(cells.getD i Cell.null == Cell.null))

/-- Keep the rows at the given positions (in the given order) in every
column. -/
def Table.selectRows (t : Table) (idx : List ℕ) : Table :=
  t.mapCells (fun c => (c.dtype, idx.map (fun i => c.cells.getD i Cell.null)))

/-- Apply a cell-list transformation to the column(s) of the given name,
leaving dtype and all other columns unchanged. -/
def fillColumn (t : Table) (n : String) (f : List Cell → List Cell) : Table :=
  t.mapCells (fun c => (c.dtype, if c.name == n then f c.cells else c.cells))

/-- `df[col]` with a possibly-missing dropdown value: `df[None]` and
`df[absent]` both raise `KeyError`. -/
def getColOpt (t : Table) (n : Option String) : Except PyErr Column :=
  match n with
  | none => .error (.keyError "None")
  | some c =>
    match t.getCol c with
    | some col => .ok col
    | none => .error (.keyError c)

/-- Dash stores an unselected text input / dropdown as `None`; Python
truthiness also rejects the empty string. -/
def truthyOpt : Option String → Bool
  | none => false
  | some s => !(s == "")

/-- Render an optional dropdown value the way Python's f-string renders it. -/
def optStr : Option String → String
  | some s => s
  | none => "None"

/-- The radio value strings of the missing-value actions. -/
def missActionStr : MissAction → String
  | .drop_rows => "drop_rows"
  | .mean => "mean"
  | .median => "median"
  | .mode => "mode"
  | .ffill => "ffill"
  | .bfill => "bfill"

/-- The dropdown value strings of the convert-type targets. -/
def typeTargetStr : TypeTarget → String
  | .numeric => "numeric"
  | .string => "string"
  | .datetime => "datetime"

/-- The radio value strings of the normalization methods. -/
def normMethodStr : NormMethod → String
  | .minmax => "minmax"
  | .standard => "standard"
  | .robust => "robust"

/-- `pd.to_numeric(series, errors='coerce')` on one cell: numbers stay,
parsable strings become numbers, unparsable values become null, datetimes
become their integer nanosecond value. -/
def toNumericCell : Cell → Cell
  | .num q => .num q
  | .str s => (parseFloatCell s).getD .null
  | .time t => .num ((t : ℚ) * 1000000)
  | .null => .null

/-- `series.astype(str)` on one cell; note a missing marker becomes the
literal string `"nan"`. -/
def toStringCell (c : Cell) : Cell :=
  .str (cellToPyStr c)

/-- `pd.to_datetime(series, errors='coerce')` on one cell: ISO strings
parse, other strings coerce to null, numbers are epoch nanoseconds
(truncated to the millisecond model resolution). -/
def toDatetimeCell : Cell → Cell
  | .num q => .time ((q / 1000000).floor)
  | .str s => match isoParse s with | some t => .time t | none => .null
  | .time t => .time t
  | .null => .null

/-- The `btn-apply-missing` branch of `process_data`. -/
def missingStep (col? : Option String) (act : MissAction) (t : Table) :
    Except FailAlert (Table × String) :=
  match getColOpt t col? with
  | .error e => .error (.execFailure e)
  | .ok col =>
    match act with
    | .drop_rows =>
      .ok (t.selectRows (nonNullIdx col.cells),
        "Applied drop_rows to " ++ col.name)
    | .mean =>
      if col.dtype == .numeric then
        let vals := colNums col.cells
        if vals.length == 0 then .ok (t, "Applied mean to " ++ col.name)
        else .ok (fillColumn t col.name (fillConst (.num (meanQ vals))),
          "Applied mean to " ++ col.name)
      else .error (.validation "Column is not numeric. Convert type first."
        "alert alert-warning")
    | .median =>
      if col.dtype == .numeric then
        let vals := colNums col.cells
        if vals.length == 0 then .ok (t, "Applied median to " ++ col.name)
        else .ok (fillColumn t col.name (fillConst (.num (medianQ vals))),
          "Applied median to " ++ col.name)
      else .error (.validation "Column is not numeric. Convert type first."
        "alert alert-warning")
    | .mode =>
      match modeCell col.cells with
      | none => .error (.execFailure (.keyError "0"))
      | some v => .ok (fillColumn t col.name (fillConst v),
          "Applied mode to " ++ col.name)
    | .ffill =>
      .ok (fillColumn t col.name ffillCells,
        "Filled " ++ col.name ++ " with value above (Forward Fill)")
    | .bfill =>
      .ok (fillColumn t col.name bfillCells,
        "Filled " ++ col.name ++ " with value below (Backward Fill)")

/-- The `btn-apply-type` branch. With no target selected, none of the three
conditionals fires and the unchanged frame is re-committed with a success
message. -/
def typeStep (col? : Option String) (target : Option TypeTarget) (t : Table) :
    Except FailAlert (Table × String) :=
  match target with
  | none => .ok (t, "Converted " ++ optStr col? ++ " to None")
  | some tg =>
    match getColOpt t col? with
    | .error e => .error (.execFailure e)
    | .ok col =>
      let dty : DType := match tg with
        | .numeric => .numeric
        | .string => .text
        | .datetime => .temporal
      let f : Cell → Cell := match tg with
        | .numeric => toNumericCell
        | .string => toStringCell
        | .datetime => toDatetimeCell
      .ok (t.mapCells (fun c =>
          (if c.name == col.name then dty else c.dtype,
           if c.name == col.name then c.cells.map f else c.cells)),
        "Converted " ++ col.name ++ " to " ++ typeTargetStr tg)

/-- The `btn-apply-drop` branch (`df.drop(columns=drop_cols)`). -/
def dropStep (cols? : Option (List String)) (t : Table) :
    Except FailAlert (Table × String) :=
  match cols? with
  | none => .error (.execFailure (.valueError
      "Need to specify at least one of 'labels', 'index' or 'columns'"))
  | some ds =>
    if ds.all (fun d => t.names.contains d) then
      .ok (⟨t.cols.filter (fun c => !(ds.contains c.name))⟩,
        "Dropped columns: " ++ toString ds.length)
    else .error (.execFailure (.keyError "not found in axis"))

/-- The `btn-apply-replace` branch: the only explicitly validated action
(`if clean_col and bad_val is not None`). A replacement value of `None`
falls into pandas' deprecated fill mode and is modelled as the missing
marker; no claim depends on it. The dtype drift of `replace` on a numeric
column is not modelled (no claim inspects replaced values). -/
def replaceStep (col? : Option String) (bad? : Option Cell)
    (new? : Option String) (t : Table) : Except FailAlert (Table × String) :=
  match col?, bad? with
  | some cn, some b =>
    if cn == "" then
      .error (.validation "Please select value to replace." "alert alert-danger")
    else
      match t.getCol cn with
      | none => .error (.execFailure (.keyError cn))
      | some col =>
        let newCell : Cell := match new? with | some s => .str s | none => .null
        .ok (fillColumn t col.name
            (fun cs => cs.map (fun x => if x == b then newCell else x)),
          "Replaced '" ++ cellToPyStr b ++ "' with '" ++ optStr new? ++ "' in "
            ++ col.name)
  | _, _ =>
    .error (.validation "Please select value to replace." "alert alert-danger")

/-- The `btn-apply-disc` branch: compute codes with `cut`/`qcut`, then
assign them to the column `<name>_bins` (replacing it if it already
exists). -/
def discStep (col? : Option String) (bins? : Option ℕ) (strat : DiscStrat)
    (t : Table) : Except FailAlert (Table × String) :=
  match getColOpt t col? with
  | .error e => .error (.execFailure e)
  | .ok col =>
    if !(col.dtype == .numeric) then
      .error (.execFailure (.typeError "input array must be numeric"))
    else
      match bins? with
      | none => .error (.execFailure (.typeError "bins must be an integer"))
      | some bins =>
        let r := match strat with
          | .uniform => cutCells bins col.cells
          | .quantile => qcutCells bins col.cells
        match r with
        | .error e => .error (.execFailure e)
        | .ok newCells =>
          .ok (t.setCol (col.name ++ "_bins") .numeric newCells,
            "Binned " ++ col.name)

/-- The `btn-apply-norm` branch (`scaler.fit_transform(df[norm_cols])`). -/
def normStep (cols? : Option (List String)) (m : NormMethod) (t : Table) :
    Except FailAlert (Table × String) :=
  match cols? with
  | none => .error (.execFailure (.keyError "None"))
  | some ns =>
    if !(ns.all (fun n0 => t.names.contains n0)) then
      .error (.execFailure (.keyError "not in index"))
    else if ns.length == 0 then
      .error (.execFailure (.valueError "at least 1 feature is required"))
    else if !(ns.all (fun n0 => match t.getCol n0 with
        | some c => c.dtype == .numeric
        | none => false)) then
      .error (.execFailure (.valueError "could not convert string to float"))
    else
      .ok (t.mapCells (fun c =>
          (c.dtype,
           if ns.contains c.name then
             c.cells.map (fun x => match x with
               | .num v => .num (scaleFun m (colNums c.cells) v)
               | other => other)
           else c.cells)),
        "Normalized " ++ toString ns.length ++ " columns using "
          ++ normMethodStr m)

/-- The `btn-apply-enc` branch: label encoding replaces the column in
place; one-hot encoding appends the dummy columns with `pd.concat`
(which never deduplicates column names). -/
def encStep (col? : Option String) (m : EncMethod) (t : Table) :
    Except FailAlert (Table × String) :=
  match getColOpt t col? with
  | .error e => .error (.execFailure e)
  | .ok col =>
    match m with
    | .label =>
      .ok (t.mapCells (fun c =>
          (if c.name == col.name then .numeric else c.dtype,
           if c.name == col.name then labelCells c.cells else c.cells)),
        "Label Encoded " ++ col.name)
    | .onehot =>
      .ok (⟨t.cols ++ oneHotCols col.name col.cells⟩,
        "One-Hot Encoded " ++ col.name)

/-- One triggered action of the `process_data` callback: the button that
fired together with the relevant dropdown/radio/input state. -/
inductive TransformRequest
  | applyMissing (col : Option String) (act : MissAction)
  | applyType (col : Option String) (target : Option TypeTarget)
  | applyDrop (cols : Option (List String))
  | applyReplace (col : Option String) (bad : Option Cell) (new : Option String)
  | applyDisc (col : Option String) (bins : Option ℕ) (strat : DiscStrat)
  | applyNorm (cols : Option (List String)) (method : NormMethod)
  | applyEnc (col : Option String) (method : EncMethod)
deriving DecidableEq, Repr

/-- The table-level semantics of one registry transform: the body of the
try-block of `process_data` on the deserialized frame. A `.error` result is
an early validation return or a caught exception; in either case the
function has produced no new frame. -/
def applyAction : TransformRequest → Table → Except FailAlert (Table × String)
  | .applyMissing c a, t => missingStep c a t
  | .applyType c tg, t => typeStep c tg t
  | .applyDrop cs, t => dropStep cs t
  | .applyReplace c b n2, t => replaceStep c b n2 t
  | .applyDisc c b s, t => discStep c b s t
  | .applyNorm cs m, t => normStep cs m t
  | .applyEnc c m, t => encStep c m t

/-- Outcome of one firing of the `process_data` callback: `PreventUpdate`
(no table loaded), keep the stored snapshot and show a failure alert, or
commit a freshly serialized snapshot together with the success message. -/
inductive ProcOutcome
  | preventUpdate
  | keep (alert : FailAlert)
  | commit (snap : Snap) (successMsg : String)
deriving DecidableEq, Repr

/-- The `process_data` callback: deserialize the current snapshot, run the
triggered transform, and either commit `df.to_json(...)` with a ✅ message
or leave the store untouched (`dash.no_update`) with the failure alert. -/
def process_data (a : TransformRequest) (json_data : Option Snap) : ProcOutcome :=
  match json_data with
  | none => .preventUpdate
  | some sn =>
    match applyAction a (parse_data sn) with
    | .ok (t, msg) => .commit (encodeSnap t) msg
    | .error al => .keep al

/-- The session store after a callback outcome is applied: only a commit
replaces the stored snapshot. -/
def newStore (store : Option Snap) (o : ProcOutcome) : Option Snap :=
  match o with
  | .commit sn _ => some sn
  | _ => store

/-- Tables reachable through the registry: an uploaded table (the upload
path `index.py:store_data` parses an arbitrary user CSV, so any well-formed
table can arrive), or the successful result of a registry transform on a
reachable table. -/
inductive Reachable : Table → Prop
  | upload (t : Table) : t.WF → Reachable t
  | step (t t2 : Table) (a : TransformRequest) (m : String) :
      Reachable t → applyAction a t = .ok (t2, m) → Reachable t2

/-- A CSV download payload (file name plus exported table; CSV text
rendering is out of scope). -/
structure Download where
  fileName : String
  exported : Table
deriving DecidableEq, Repr

/-- The three download outputs of `handle_downloads`. -/
structure DlOut where
  main : Option Download
  train : Option Download
  test : Option Download
deriving DecidableEq, Repr

/-- Which download button fired. -/
inductive DlTrigger
  | download
  | applySplit
deriving DecidableEq, Repr

/-- sklearn's test-set size for a float `test_size`:
`ceil(test_size * n_samples)`. -/
def nTestOf (size : ℚ) (n : ℕ) : ℕ :=
  (size * (n : ℚ)).ceil.toNat

/-- The index permutation and its split used by
`train_test_split(..., random_state=seed)`: test indices first, then train
indices. The seeded NumPy shuffle is modelled by a rotation of the index
range — a deterministic permutation; every property proved below (sizes,
disjoint exact cover, reproducibility) is invariant under which permutation
the fixed seed denotes. -/
def splitIdx (seed n nTest : ℕ) : List ℕ × List ℕ :=
  let p := (List.range n).rotate seed
  (p.drop nTest, p.take nTest)

/-- `train_test_split(df, test_size=size, random_state=seed)`. -/
def train_test_split (t : Table) (size : ℚ) (seed : ℕ) :
    Except PyErr (Table × Table) :=
  let n := t.rowCount
  if size ≤ 0 ∨ 1 ≤ size then
    .error (.valueError "test_size should be in the (0, 1) range")
  else
    let nTest := nTestOf size n
    if nTest == 0 || n - nTest == 0 then
      .error (.valueError "resulting train set will be empty")
    else
      let (trainIdx, testIdx) := splitIdx seed n nTest
      .ok (t.selectRows trainIdx, t.selectRows testIdx)

/-- The `handle_downloads` callback: exports the current frame, or the
train/test partition of it; a failed split (caught and printed) produces no
downloads. The stored snapshot is not among this callback's outputs. -/
def handle_downloads (btn : DlTrigger) (json_data : Option Snap)
    (target : Option String) (size : ℚ) : DlOut :=
  match json_data with
  | none => ⟨none, none, none⟩
  | some sn =>
    let df := parse_data sn
    match btn with
    | .download => ⟨some ⟨"cleaned_dataset.csv", df⟩, none, none⟩
    | .applySplit =>
      if !(truthyOpt target) then ⟨none, none, none⟩
      else
        match train_test_split df size 42 with
        | .ok (tr, te) => ⟨none, some ⟨"train.csv", tr⟩, some ⟨"test.csv", te⟩⟩
        | .error _ => ⟨none, none, none⟩

/-- One full firing of the download callback at session level: its Dash
Output list contains only the three download slots, so the store component
is returned unchanged. -/
def dlStep (store : Option Snap) (btn : DlTrigger) (target : Option String)
    (size : ℚ) : Option Snap × DlOut :=
  (store, handle_downloads btn store target size)

/-- Decidable equality for transform results (used by the concrete
counterexamples below). -/
instance exceptDecEq {e a : Type} [DecidableEq e] [DecidableEq a] :
    DecidableEq (Except e a)
  | .ok x, .ok y =>
    if h : x = y then .isTrue (by rw [h])
    else .isFalse (fun he => by cases he; exact h rfl)
  | .ok _, .error _ => .isFalse (fun he => by cases he)
  | .error _, .ok _ => .isFalse (fun he => by cases he)
  | .error x, .error y =>
    if h : x = y then .isTrue (by rw [h])
    else .isFalse (fun he => by cases he; exact h rfl)

/-- C1: every triggered transform on a loaded snapshot either commits a new
serialized snapshot together with a success message, or keeps the stored
snapshot exactly as it was and produces a failure alert instead. (The
failure alerts — inline validation returns and the catch-all handler — are
a separate type from success commits, so an error is never reported as a
success.) -/
theorem transform_atomicity (a : TransformRequest) (sn : Snap) :
    (∃ sn2 msg, process_data a (some sn) = .commit sn2 msg ∧
      newStore (some sn) (process_data a (some sn)) = some sn2) ∨
    (∃ al, process_data a (some sn) = .keep al ∧
      newStore (some sn) (process_data a (some sn)) = some sn) := by
  cases h : applyAction a (parse_data sn) with
  | ok p =>
    exact Or.inl ⟨encodeSnap p.1, p.2, by simp [process_data, h],
      by simp [process_data, newStore, h]⟩
  | error al =>
    exact Or.inr ⟨al, by simp [process_data, h],
      by simp [process_data, newStore, h]⟩

/-- A fixed one-column snapshot used by the concrete counterexamples. -/
def snapA : Snap :=
  ⟨["A"], [[.jnum 1], [.jnum 2]]⟩

/-- C4 counterexample: triggering discretize with no column selected does
not produce a pre-transform validation message — the `df[None]` lookup
raises `KeyError`, which the catch-all turns into the generic
execution-failure alert, the same alert form as any transform crash. -/
theorem missing_param_not_validated :
    process_data (.applyDisc none (some 5) .uniform) (some snapA) =
      .keep (.execFailure (.keyError "None")) ∧
    ∀ m k, (FailAlert.execFailure (.keyError "None")) ≠ .validation m k := by
  refine ⟨by decide, ?_⟩
  intro m k h
  cases h

/-- C4 amended: only the replace-value action validates its parameters
before any transform runs — with no replacement value selected it returns
the fixed validation message (an alert distinct by construction from the
execution-failure form) and the stored snapshot is untouched. There is no
dispatcher-wide guard: convert-type with no target selected does not even
fail — none of its conditionals fires and the unchanged frame is
re-committed with the success message `Converted <col> to None`. -/
theorem replace_missing_value_validated (sn : Snap) (col : Option String)
    (nv : Option String) :
    (process_data (.applyReplace col none nv) (some sn) =
      .keep (.validation "Please select value to replace." "alert alert-danger")
      ∧ newStore (some sn) (process_data (.applyReplace col none nv) (some sn))
        = some sn) ∧
    process_data (.applyType col none) (some sn) =
      .commit (encodeSnap (parse_data sn))
        ("Converted " ++ optStr col ++ " to None") := by
  cases col <;> exact ⟨⟨rfl, rfl⟩, rfl⟩

/-- C10: the download callback never writes the stored snapshot — for both
buttons and any parameters the session store after the callback is the
store before it; the split button produces no main-dataset download, and
the download button exports exactly the current frame. -/
theorem downloads_preserve_store (store : Option Snap) (sn : Snap)
    (target : Option String) (size : ℚ) :
    (dlStep store .applySplit target size).1 = store ∧
    (dlStep store .download target size).1 = store ∧
    (dlStep (some sn) .applySplit target size).2.main = none ∧
    (dlStep (some sn) .download target size).2 =
      ⟨some ⟨"cleaned_dataset.csv", parse_data sn⟩, none, none⟩ := by
  refine ⟨rfl, rfl, ?_, rfl⟩
  show (handle_downloads .applySplit (some sn) target size).main = none
  unfold handle_downloads
  cases htr : truthyOpt target
  · simp
  · simp only [htr]
    cases h : train_test_split (parse_data sn) size 42 with
    | ok p => cases p with | mk tr te => simp
    | error e => simp

/-- A one-column numeric table, as uploaded from a two-row CSV. -/
def tBnum : Table :=
  ⟨[⟨"B", .numeric, [.num 1, .num 2]⟩]⟩

/-- The result of convert-type→string on `tBnum`: a text column holding the
Python float strings. -/
def tBstr : Table :=
  ⟨[⟨"B", .text, [.str "1.0", .str "2.0"]⟩]⟩

/-- C2 counterexample: a reachable table (numeric column converted to
string by the registry's convert-type transform) whose snapshot does not
decode back to itself — `read_json`'s dtype inference turns the numeral
strings back into numbers, so the text column returns as a numeric one. -/
theorem roundtrip_fails_on_numeral_strings :
    Reachable tBstr ∧ parse_data (encodeSnap tBstr) ≠ tBstr := by
  constructor
  · exact .step tBnum tBstr (.applyType (some "B") (some .string))
      "Converted B to string" (.upload tBnum (by decide)) (by decide)
  · decide

/-- A table that already carries a column named `A_bins`. -/
def tAbins : Table :=
  ⟨[⟨"A", .numeric, [.num 0, .num 10]⟩, ⟨"A_bins", .numeric, [.num 7, .num 7]⟩]⟩

/-- C5 counterexample: discretizing `A` with 5 bins on a table that already
has an `A_bins` column adds no column at all — the assignment overwrites
the existing `A_bins` in place, mutating an existing column. -/
theorem disc_overwrites_existing_bins_col :
    applyAction (.applyDisc (some "A") (some 5) .uniform) tAbins =
      .ok (⟨[⟨"A", .numeric, [.num 0, .num 10]⟩,
             ⟨"A_bins", .numeric, [.num 0, .num 4]⟩]⟩, "Binned A") ∧
    (⟨[⟨"A", .numeric, [.num 0, .num 10]⟩,
       ⟨"A_bins", .numeric, [.num 0, .num 4]⟩]⟩ : Table).cols.length
      = tAbins.cols.length ∧
    Table.getCol ⟨[⟨"A", .numeric, [.num 0, .num 10]⟩,
       ⟨"A_bins", .numeric, [.num 0, .num 4]⟩]⟩ "A_bins" ≠ tAbins.getCol "A_bins" := by
  refine ⟨by decide, by decide, by decide⟩

/-- A numeric column with two distinct values, each twice. -/
def tTwoDistinct : Table :=
  ⟨[⟨"A", .numeric, [.num 1, .num 1, .num 2, .num 2]⟩]⟩

/-- C6 counterexample: equal-frequency discretization into 5 bins of a
column with only 2 distinct values does not fail — `duplicates='drop'`
merges the repeated quantile edges and the action succeeds, appending a
bin column. -/
theorem qcut_fewer_distinct_succeeds :
    (colNums [Cell.num 1, .num 1, .num 2, .num 2]).dedup.length = 2 ∧
    2 < 5 ∧
    applyAction (.applyDisc (some "A") (some 5) .quantile) tTwoDistinct =
      .ok (⟨[⟨"A", .numeric, [.num 1, .num 1, .num 2, .num 2]⟩,
             ⟨"A_bins", .numeric, [.num 0, .num 0, .num 2, .num 2]⟩]⟩,
           "Binned A") := by
  refine ⟨by decide, by decide, by decide⟩

/-- A text column containing a missing marker. -/
def tCnull : Table :=
  ⟨[⟨"C", .text, [.str "x", .null]⟩]⟩

/-- C7 counterexample: label encoding first converts the column with
`astype(str)`, so the missing marker becomes the category string "nan" and
receives its own code — with k = 1 distinct non-null value the produced
codes are not drawn from {0, …, k-1}. -/
theorem label_codes_exceed_nonnull_classes :
    applyAction (.applyEnc (some "C") .label) tCnull =
      .ok (⟨[⟨"C", .numeric, [.num 0, .num 1]⟩]⟩, "Label Encoded C") ∧
    (distinctNonNull [Cell.str "x", Cell.null]).length = 1 ∧
    ¬ (∀ x ∈ [Cell.num 0, Cell.num 1],
        ∃ j : ℕ, j < (distinctNonNull [Cell.str "x", Cell.null]).length ∧
          x = .num j) := by
  refine ⟨by decide, by decide, ?_⟩
  intro h
  rcases h (.num 1) (by simp) with ⟨j, hj, hx⟩
  have hj0 : j = 0 := by
    have : (distinctNonNull [Cell.str "x", Cell.null]).length = 1 := by decide
    omega
  subst hj0
  have : (1 : ℚ) = ((0 : ℕ) : ℚ) := by injection hx
  norm_num at this

/-- The intermediate and final tables of the repeated one-hot
counterexample. -/
def tConehot1 : Table :=
  ⟨[⟨"C", .text, [.str "x", .null]⟩, ⟨"C_x", .numeric, [.num 1, .num 0]⟩]⟩

/-- C9 counterexample: one-hot encoding the same column twice appends the
same dummy names again (`pd.concat` does not deduplicate), so column-name
uniqueness is not preserved. -/
theorem repeated_onehot_duplicates_names :
    applyAction (.applyEnc (some "C") .onehot) tCnull =
      .ok (tConehot1, "One-Hot Encoded C") ∧
    applyAction (.applyEnc (some "C") .onehot) tConehot1 =
      .ok (⟨[⟨"C", .text, [.str "x", .null]⟩,
             ⟨"C_x", .numeric, [.num 1, .num 0]⟩,
             ⟨"C_x", .numeric, [.num 1, .num 0]⟩]⟩, "One-Hot Encoded C") ∧
    tCnull.names.Nodup ∧
    ¬ (⟨[⟨"C", .text, [.str "x", .null]⟩,
         ⟨"C_x", .numeric, [.num 1, .num 0]⟩,
         ⟨"C_x", .numeric, [.num 1, .num 0]⟩]⟩ : Table).names.Nodup := by
  refine ⟨by decide, by decide, by decide, by decide⟩

/-- Bridge between the computable `Rat.floor` used in the definitions and
the `⌊·⌋` the library lemmas speak about. -/
theorem ratFloor_eq_intFloor (q : ℚ) : q.floor = ⌊q⌋ :=
  (Rat.floor_def' q).trans Rat.floor_def.symm

/-- Mapping a function over `getD` across the index range is mapping it over
the list. -/
theorem range_map_getD {α β : Type} (l : List α) (d : α) (g : α → β) :
    (List.range l.length).map (fun i => g (l.getD i d)) = l.map g := by
  induction l with
  | nil => rfl
  | cons a as ih =>
    calc (List.range (a :: as).length).map (fun i => g ((a :: as).getD i d))
        = g a :: (List.range as.length).map (fun i => g (as.getD i d)) := by
          rw [List.length_cons, List.range_succ_eq_map, List.map_cons,
            List.map_map, List.getD_cons_zero]
          exact congrArg (fun t2 => g a :: t2)
            (List.map_congr_left (fun i _ => rfl))
      _ = g a :: as.map g := by rw [ih]
      _ = (a :: as).map g := rfl

/-- `getD` across the index range rebuilds the list. -/
theorem range_map_getD_self {α : Type} (l : List α) (d : α) :
    (List.range l.length).map (fun i => l.getD i d) = l := by
  have := range_map_getD l d id
  simpa using this

/-- `getD` through `map`, inside bounds. -/
theorem getD_map_lt {α β : Type} (f : α → β) (l : List α) (i : ℕ)
    (h : i < l.length) (d : β) (d2 : α) :
    (l.map f).getD i d = f (l.getD i d2) := by
  rw [List.getD_eq_getElem?_getD, List.getElem?_map, List.getD_eq_getElem?_getD,
    List.getElem?_eq_getElem h]
  simp

/-- A `getD` at an in-bounds index is a member. -/
theorem getD_mem_of_lt {α : Type} (l : List α) (i : ℕ) (h : i < l.length)
    (d : α) : l.getD i d ∈ l := by
  rw [List.getD_eq_getElem?_getD, List.getElem?_eq_getElem h]
  simp only [Option.getD_some]
  exact List.getElem_mem h

/-- An element of a sorted list is at most its last entry. -/
theorem sorted_le_getD_last :
    ∀ (l : List ℚ), l.Sorted (fun a b => a ≤ b) →
      ∀ x ∈ l, x ≤ l.getD (l.length - 1) 0
  | [], _, x, hx => absurd hx (List.not_mem_nil x)
  | [a], _, x, hx => by
      rcases List.mem_singleton.mp hx with rfl
      simp
  | a :: b :: bs, hs, x, hx => by
      have hs2 := (List.sorted_cons.mp hs).2
      have hshift : (a :: b :: bs).getD ((a :: b :: bs).length - 1) 0
          = (b :: bs).getD ((b :: bs).length - 1) 0 := by
        simp [List.getD_cons_succ]
      rcases List.mem_cons.mp hx with rfl | hmem
      · have hmem2 : (b :: bs).getD ((b :: bs).length - 1) 0 ∈ b :: bs :=
          getD_mem_of_lt _ _ (by simp) 0
        rw [hshift]
        exact (List.sorted_cons.mp hs).1 _ hmem2
      · rw [hshift]
        exact sorted_le_getD_last (b :: bs) hs2 x hmem

/-- An element of a sorted list is at least its first entry. -/
theorem sorted_getD_zero_le (l : List ℚ) (hs : l.Sorted (· ≤ ·)) (x : ℚ)
    (hx : x ∈ l) : l.getD 0 0 ≤ x := by
  cases l with
  | nil => cases hx
  | cons a as =>
    rcases List.mem_cons.mp hx with rfl | hmem
    · simp
    · simpa using (List.sorted_cons.mp hs).1 x hmem

/-- The found column's name is the looked-up name. -/
theorem getCol_name {t : Table} {cn : String} {col : Column}
    (h : t.getCol cn = some col) : col.name = cn := by
  have := List.find?_some h
  exact eq_of_beq this

/-- The found column is one of the table's columns. -/
theorem getCol_mem {t : Table} {cn : String} {col : Column}
    (h : t.getCol cn = some col) : col ∈ t.cols :=
  List.mem_of_find?_eq_some h

/-- C3: fill-mean on an existing numeric column with at least one non-null
value replaces exactly its null cells with the mean of the non-null values
and leaves every other cell, every other column, all names and dtypes, and
the column order unchanged; fill-mean on an existing non-numeric column is
rejected before any mutation with the type-validation message. The claim's
example table instantiates both halves (see the witness). -/
theorem fill_mean_spec (t : Table) (cn : String) (col : Column)
    (hcol : t.getCol cn = some col) :
    (col.dtype = .numeric → 0 < (colNums col.cells).length →
      applyAction (.applyMissing (some cn) .mean) t =
        .ok (⟨t.cols.map (fun c =>
            ⟨c.name, c.dtype,
             if c.name == cn then
               c.cells.map (fun x =>
                 if x == Cell.null then Cell.num (meanQ (colNums col.cells))
                 else x)
             else c.cells⟩)⟩,
          "Applied mean to " ++ cn)) ∧
    (col.dtype ≠ .numeric →
      applyAction (.applyMissing (some cn) .mean) t =
        .error (.validation "Column is not numeric. Convert type first."
          "alert alert-warning")) := by
  have hname : col.name = cn := getCol_name hcol
  have hopt : getColOpt t (some cn) = .ok col := by
    simp only [getColOpt, hcol]
  constructor
  · intro hdt hnz
    have hd : (col.dtype == DType.numeric) = true := by rw [hdt]; rfl
    have hlen : ((colNums col.cells).length == 0) = false :=
      beq_eq_false_iff_ne.mpr (by omega)
    simp only [applyAction, missingStep, hopt, hd, hlen, Bool.false_eq_true,
      if_true, if_false, fillColumn, Table.mapCells, fillConst, hname]
  · intro hdt
    have hd : (col.dtype == DType.numeric) = false := by
      cases hdt2 : col.dtype <;> simp_all
    simp only [applyAction, missingStep, hopt, hd, Bool.false_eq_true,
      if_false]

/-- The claim's example table `[{A:1,B:"x"},{A:null,B:"y"},{A:3,B:"x"}]`. -/
def tMeanExample : Table :=
  ⟨[⟨"A", .numeric, [.num 1, .null, .num 3]⟩,
    ⟨"B", .text, [.str "x", .str "y", .str "x"]⟩]⟩

/-- Witness for the fill-mean theorem at the claim's example: A becomes
[1,2,3] with B untouched, and fill-mean on B is rejected. -/
theorem fill_mean_spec_witness :
    applyAction (.applyMissing (some "A") .mean) tMeanExample =
      .ok (⟨[⟨"A", .numeric, [.num 1, .num 2, .num 3]⟩,
             ⟨"B", .text, [.str "x", .str "y", .str "x"]⟩]⟩,
        "Applied mean to A") ∧
    applyAction (.applyMissing (some "B") .mean) tMeanExample =
      .error (.validation "Column is not numeric. Convert type first."
        "alert alert-warning") := by
  constructor
  · have h := (fill_mean_spec tMeanExample "A"
      ⟨"A", .numeric, [.num 1, .null, .num 3]⟩ (by decide)).1 rfl (by decide)
    exact h.trans (by decide)
  · exact (fill_mean_spec tMeanExample "B"
      ⟨"B", .text, [.str "x", .str "y", .str "x"]⟩ (by decide)).2 (by decide)

/-- Numeric content of a cell (0 for anything non-numeric); used to state
the one-hot row-sum property. -/
def cellQ : Cell → ℚ
  | .num q => q
  | _ => 0

/-- A list begins with itself before any suffix. -/
theorem listBeginsWith_append (xs ys : List Char) :
    listBeginsWith (xs ++ ys) xs = true := by
  induction xs with
  | nil => cases ys <;> rfl
  | cons a as ih => simp [listBeginsWith, ih]

/-- A string starts with its own first part. -/
theorem strStarts_append (a b : String) : strStarts (a ++ b) a = true := by
  unfold strStarts
  have hd : (a ++ b).toList = a.toList ++ b.toList := by
    show (a ++ b).data = a.data ++ b.data
    exact String.data_append a b
  rw [hd]
  exact listBeginsWith_append _ _

/-- Summing the indicator of one member of a duplicate-free list gives 1. -/
theorem sum_indicator_one (x : Cell) (l : List Cell) (hnd : l.Nodup)
    (hx : x ∈ l) :
    (l.map (fun v => if x == v then (1 : ℚ) else 0)).sum = 1 := by
  induction l with
  | nil => cases hx
  | cons a as ih =>
    rcases List.nodup_cons.mp hnd with ⟨hna, hnd2⟩
    rcases List.mem_cons.mp hx with rfl | hmem
    · have h0 : ((as.map (fun v => if x == v then (1 : ℚ) else 0))).sum = 0 := by
        apply List.sum_eq_zero
        intro y hy
        rcases List.mem_map.mp hy with ⟨v, hv, rfl⟩
        have hne : (x == v) = false := beq_eq_false_iff_ne.mpr
          (fun he => hna (by rw [he]; exact hv))
        rw [hne]
        rfl
      rw [List.map_cons, List.sum_cons, h0, add_zero, beq_self_eq_true]
      rfl
    · have hxa : (x == a) = false := beq_eq_false_iff_ne.mpr
        (fun he => hna (he ▸ hmem))
      rw [List.map_cons, List.sum_cons]
      simp only [hxa, Bool.false_eq_true, if_false]
      rw [ih hnd2 hmem, zero_add]

/-- Each row with a non-null source cell has dummy values summing to 1. -/
theorem oneHot_row_sum (pfx : String) (cells : List Cell) (i : ℕ)
    (hi : i < cells.length) (hnn : cells.getD i Cell.null ≠ Cell.null) :
    ((oneHotCols pfx cells).map
      (fun d => cellQ (d.cells.getD i Cell.null))).sum = 1 := by
  unfold oneHotCols
  rw [List.map_map]
  have hx : cells.getD i Cell.null ∈ distinctNonNull cells := by
    unfold distinctNonNull nonNullCells
    rw [List.mem_dedup, List.mem_filter]
    refine ⟨getD_mem_of_lt _ _ hi _, ?_⟩
    simpa using hnn
  have hmapeq : ∀ v ∈ distinctNonNull cells,
      ((fun d => cellQ (d.cells.getD i Cell.null)) ∘ (fun v =>
        (⟨pfx ++ "_" ++ cellToPyStr v, .numeric,
          cells.map (fun x => .num (if x == v then 1 else 0))⟩ : Column))) v
      = (fun v => if cells.getD i Cell.null == v then (1 : ℚ) else 0) v := by
    intro v hv
    show cellQ ((cells.map
      (fun x => Cell.num (if x == v then 1 else 0))).getD i Cell.null) = _
    rw [getD_map_lt _ _ _ hi _ Cell.null]
    rfl
  rw [List.map_congr_left hmapeq]
  exact sum_indicator_one _ _ (List.nodup_dedup _) hx

/-- C7 amended: one-hot encoding appends exactly one 0/1 column per
distinct non-null value (prefixed by the source column's name, summing to 1
on every row whose source cell is non-null) and leaves every existing
column — the source included — untouched; label encoding replaces the
column in place with integer codes below the number of distinct values of
the stringified column (nulls participate as the string "nan"). -/
theorem encode_spec (t : Table) (cn : String) (col : Column)
    (hcol : t.getCol cn = some col) :
    (applyAction (.applyEnc (some cn) .onehot) t =
        .ok (⟨t.cols ++ oneHotCols cn col.cells⟩, "One-Hot Encoded " ++ cn) ∧
      (oneHotCols cn col.cells).length = (distinctNonNull col.cells).length ∧
      (∀ d ∈ oneHotCols cn col.cells,
        strStarts d.name (cn ++ "_") = true) ∧
      (∀ i, i < col.cells.length → col.cells.getD i Cell.null ≠ Cell.null →
        ((oneHotCols cn col.cells).map
          (fun d => cellQ (d.cells.getD i Cell.null))).sum = 1)) ∧
    (applyAction (.applyEnc (some cn) .label) t =
        .ok (⟨t.cols.map (fun c =>
            ⟨c.name, if c.name == cn then DType.numeric else c.dtype,
             if c.name == cn then labelCells c.cells else c.cells⟩)⟩,
          "Label Encoded " ++ cn) ∧
      ∀ x ∈ labelCells col.cells,
        ∃ j : ℕ, j < (strClasses col.cells).length ∧ x = .num j) := by
  have hname : col.name = cn := getCol_name hcol
  have hopt : getColOpt t (some cn) = .ok col := by
    simp only [getColOpt, hcol]
  refine ⟨⟨?_, ?_, ?_, ?_⟩, ?_, ?_⟩
  · simp only [applyAction, encStep, hopt, hname]
  · simp [oneHotCols]
  · intro d hd
    unfold oneHotCols at hd
    rcases List.mem_map.mp hd with ⟨v, hv, rfl⟩
    show strStarts (cn ++ "_" ++ cellToPyStr v) (cn ++ "_") = true
    exact strStarts_append _ _
  · intro i hi hnn
    exact oneHot_row_sum cn col.cells i hi hnn
  · simp only [applyAction, encStep, hopt, hname, Table.mapCells]
  · intro x hx
    unfold labelCells at hx
    rcases List.mem_map.mp hx with ⟨c, hc, rfl⟩
    refine ⟨List.indexOf (cellToPyStr c) (strClasses col.cells), ?_, rfl⟩
    apply List.indexOf_lt_length.mpr
    unfold strClasses
    exact List.mem_dedup.mpr (List.mem_map_of_mem _ hc)

/-- Example column for the encode witness. -/
def tEncExample : Table :=
  ⟨[⟨"C", .text, [.str "x", .str "y", .null]⟩]⟩

/-- Witness for the encode theorem at a concrete column with a null. -/
theorem encode_spec_witness :
    applyAction (.applyEnc (some "C") .onehot) tEncExample =
      .ok (⟨tEncExample.cols ++ oneHotCols "C" [.str "x", .str "y", .null]⟩,
        "One-Hot Encoded C") ∧
    ((oneHotCols "C" [.str "x", .str "y", .null]).map
      (fun d => cellQ (d.cells.getD 0 Cell.null))).sum = 1 := by
  have h := encode_spec tEncExample "C"
    ⟨"C", .text, [.str "x", .str "y", .null]⟩ (by decide)
  exact ⟨h.1.1, h.1.2.2.2 0 (by decide) (by decide)⟩

/-- Cell-level rebuilds keep the name list. -/
theorem names_mapCells (t : Table) (g : Column → DType × List Cell) :
    (t.mapCells g).names = t.names := by
  unfold Table.mapCells Table.names
  rw [List.map_map]
  exact List.map_congr_left (fun c _ => rfl)

/-- Assigning to an existing column keeps the name list. -/
theorem names_setCol_mem (t : Table) (n : String) (dty : DType)
    (cells : List Cell) (h : n ∈ t.names) :
    (t.setCol n dty cells).names = t.names := by
  unfold Table.setCol
  rw [if_pos h]
  show (List.map _ t.cols).map _ = _
  rw [List.map_map]
  apply List.map_congr_left
  intro c _
  by_cases hb : c.name = n <;> simp [hb]

/-- Assigning to a fresh column name appends it. -/
theorem names_setCol_not_mem (t : Table) (n : String) (dty : DType)
    (cells : List Cell) (h : n ∉ t.names) :
    (t.setCol n dty cells).names = t.names ++ [n] := by
  unfold Table.setCol
  rw [if_neg h]
  show (t.cols ++ _).map _ = _
  rw [List.map_append]
  rfl

/-- Extract the produced table from a successful transform equation. -/
theorem ok_fst {x : Table × String} {t2 : Table} {m : String}
    (h : (Except.ok x : Except FailAlert (Table × String)) = .ok (t2, m)) :
    t2 = x.1 := by
  injection h with h1
  exact (congrArg Prod.fst h1).symm

/-- Side condition under which one-hot encoding keeps names duplicate-free:
its generated dummy names are mutually distinct and collide with no
existing column. Every other action needs no condition. -/
def onehotNameSafe : TransformRequest → Table → Prop
  | .applyEnc (some cn) .onehot, t =>
    match t.getCol cn with
    | some col =>
      ((oneHotCols cn col.cells).map (fun c => c.name)).Nodup ∧
        ∀ n2 ∈ (oneHotCols cn col.cells).map (fun c => c.name), n2 ∉ t.names
    | none => True
  | _, _ => True

/-- A cell-level rebuild of a duplicate-free table stays duplicate-free. -/
theorem nodup_names_mapCells (t : Table) (g : Column → DType × List Cell)
    (hnd : t.names.Nodup) : (t.mapCells g).names.Nodup := by
  rw [names_mapCells]
  exact hnd

/-- C9 amended: every successful transform preserves column-name
uniqueness, except that one-hot encoding needs its dummy names to be
mutually distinct and fresh (`onehotNameSafe`) — without that side
condition `pd.concat` appends colliding names, as repeating one-hot on the
same column does. -/
theorem names_nodup_preserved (a : TransformRequest) (t t2 : Table)
    (m : String) (h : applyAction a t = .ok (t2, m)) (hnd : t.names.Nodup)
    (hsafe : onehotNameSafe a t) : t2.names.Nodup := by
  cases a with
  | applyMissing c act =>
    unfold applyAction missingStep at h
    cases act with
    | drop_rows =>
      cases hg : getColOpt t c with
      | error e => simp only [hg] at h; cases h
      | ok col =>
        simp only [hg] at h
        rcases ok_fst h with rfl
        exact nodup_names_mapCells _ _ hnd
    | mean =>
      cases hg : getColOpt t c with
      | error e => simp only [hg] at h; cases h
      | ok col =>
        simp only [hg] at h
        split at h
        · split at h
          · rcases ok_fst h with rfl; exact hnd
          · rcases ok_fst h with rfl
            exact nodup_names_mapCells _ _ hnd
        · cases h
    | median =>
      cases hg : getColOpt t c with
      | error e => simp only [hg] at h; cases h
      | ok col =>
        simp only [hg] at h
        split at h
        · split at h
          · rcases ok_fst h with rfl; exact hnd
          · rcases ok_fst h with rfl
            exact nodup_names_mapCells _ _ hnd
        · cases h
    | mode =>
      cases hg : getColOpt t c with
      | error e => simp only [hg] at h; cases h
      | ok col =>
        simp only [hg] at h
        cases hm : modeCell col.cells with
        | none => simp only [hm] at h; cases h
        | some v =>
          simp only [hm] at h
          rcases ok_fst h with rfl
          exact nodup_names_mapCells _ _ hnd
    | ffill =>
      cases hg : getColOpt t c with
      | error e => simp only [hg] at h; cases h
      | ok col =>
        simp only [hg] at h
        rcases ok_fst h with rfl
        exact nodup_names_mapCells _ _ hnd
    | bfill =>
      cases hg : getColOpt t c with
      | error e => simp only [hg] at h; cases h
      | ok col =>
        simp only [hg] at h
        rcases ok_fst h with rfl
        exact nodup_names_mapCells _ _ hnd
  | applyType c tg =>
    unfold applyAction typeStep at h
    cases tg with
    | none =>
      rcases ok_fst h with rfl
      exact hnd
    | some tg2 =>
      cases hg : getColOpt t c with
      | error e => simp only [hg] at h; cases h
      | ok col =>
        simp only [hg] at h
        rcases ok_fst h with rfl
        exact nodup_names_mapCells _ _ hnd
  | applyDrop cs =>
    cases cs with
    | none =>
      replace h : dropStep none t = Except.ok (t2, m) := h
      simp only [dropStep] at h
      cases h
    | some ds =>
      replace h : dropStep (some ds) t = Except.ok (t2, m) := h
      simp only [dropStep] at h
      split at h
      · rcases ok_fst h with rfl
        exact hnd.sublist (List.Sublist.map _ (List.filter_sublist _))
      · cases h
  | applyReplace c b nv =>
    replace h : replaceStep c b nv t = Except.ok (t2, m) := h
    cases c with
    | none => simp only [replaceStep] at h; cases h
    | some cn =>
      cases b with
      | none => simp only [replaceStep] at h; cases h
      | some bv =>
        simp only [replaceStep] at h
        split at h
        · cases h
        · cases hg : t.getCol cn with
          | none => simp only [hg] at h; cases h
          | some col =>
            simp only [hg] at h
            rcases ok_fst h with rfl
            exact nodup_names_mapCells _ _ hnd
  | applyDisc c bins strat =>
    replace h : discStep c bins strat t = Except.ok (t2, m) := h
    simp only [discStep] at h
    cases hg : getColOpt t c with
    | error e => simp only [hg] at h; cases h
    | ok col =>
      simp only [hg] at h
      split at h
      · cases h
      · cases bins with
        | none => simp only [] at h; cases h
        | some bn =>
          cases hr : (match strat with
            | DiscStrat.uniform => cutCells bn col.cells
            | DiscStrat.quantile => qcutCells bn col.cells) with
          | error e => simp only [hr] at h; cases h
          | ok newCells =>
            simp only [hr] at h
            rcases ok_fst h with rfl
            by_cases hmem : (col.name ++ "_bins") ∈ t.names
            · exact (names_setCol_mem _ _ _ _ hmem) ▸ hnd
            · rw [names_setCol_not_mem _ _ _ _ hmem]
              refine List.nodup_append.mpr ⟨hnd, List.nodup_singleton _, ?_⟩
              intro x hx hb
              rcases List.mem_singleton.mp hb with rfl
              exact hmem hx
  | applyNorm cs meth =>
    replace h : normStep cs meth t = Except.ok (t2, m) := h
    cases cs with
    | none => simp only [normStep] at h; cases h
    | some ns =>
      simp only [normStep] at h
      split at h
      · cases h
      · split at h
        · cases h
        · split at h
          · cases h
          · rcases ok_fst h with rfl
            exact nodup_names_mapCells _ _ hnd
  | applyEnc c meth =>
    replace h : encStep c meth t = Except.ok (t2, m) := h
    simp only [encStep] at h
    cases hg : getColOpt t c with
    | error e => simp only [hg] at h; cases h
    | ok col =>
      simp only [hg] at h
      have htc : ∀ cn, c = some cn → t.getCol cn = some col := by
        intro cn hc
        rw [hc] at hg
        unfold getColOpt at hg
        cases htc2 : t.getCol cn with
        | none => simp only [htc2] at hg; cases hg
        | some col2 =>
          simp only [htc2] at hg
          injection hg with hcc
          rw [hcc]
      cases meth with
      | label =>
        rcases ok_fst h with rfl
        exact nodup_names_mapCells _ _ hnd
      | onehot =>
        rcases ok_fst h with rfl
        cases c with
        | none =>
          rw [show getColOpt t none
            = Except.error (PyErr.keyError "None") from rfl] at hg
          cases hg
        | some cn =>
          have htc2 := htc cn rfl
          unfold onehotNameSafe at hsafe
          simp only [htc2] at hsafe
          have hname : col.name = cn := getCol_name htc2
          show ((t.cols ++ oneHotCols col.name col.cells).map _).Nodup
          rw [List.map_append, hname]
          exact List.nodup_append.mpr
            ⟨hnd, hsafe.1, fun x hx hx2 => hsafe.2 x hx2 hx⟩

/-- Witness: a first one-hot encoding of `C` (fresh dummy names) keeps the
name list duplicate-free. -/
theorem names_nodup_preserved_witness : tConehot1.names.Nodup :=
  names_nodup_preserved (.applyEnc (some "C") .onehot) tCnull tConehot1
    "One-Hot Encoded C" (by decide) (by decide)
    (by
      show ((oneHotCols "C" [Cell.str "x", Cell.null]).map
          (fun c => c.name)).Nodup ∧
        ∀ n2 ∈ (oneHotCols "C" [Cell.str "x", Cell.null]).map
          (fun c => c.name), n2 ∉ tCnull.names
      decide)

/-- `sortedQ` sorts. -/
theorem sortedQ_sorted (l : List ℚ) :
    (sortedQ l).Sorted (fun a b => a ≤ b) :=
  List.sorted_insertionSort _ l

/-- `sortedQ` permutes. -/
theorem sortedQ_perm (l : List ℚ) : (sortedQ l).Perm l :=
  List.perm_insertionSort _ l

/-- The quantile at fraction 0 is the smallest sorted entry. -/
theorem quantileAt_zero (l : List ℚ) : quantileAt l 0 = l.getD 0 0 := by
  simp only [quantileAt]
  rw [zero_mul, ratFloor_eq_intFloor]
  norm_num

/-- The quantile at fraction 1 is the largest sorted entry. -/
theorem quantileAt_one (l : List ℚ) (hl : l ≠ []) :
    quantileAt l 1 = l.getD (l.length - 1) 0 := by
  simp only [quantileAt]
  have hn : 1 ≤ l.length := List.length_pos.mpr hl
  have hcast : ((l.length : ℚ) - 1) = ((l.length - 1 : ℕ) : ℚ) := by
    push_cast [hn]
    ring
  rw [one_mul, hcast, ratFloor_eq_intFloor, Int.floor_natCast]
  simp

/-- Equal-width bin indices stay below the bin count. -/
theorem cutCode_lt (mn mx : ℚ) (bins : ℕ) (hb : 0 < bins) (x : ℚ) :
    cutCode mn mx bins x < bins := by
  unfold cutCode
  split
  · exact hb
  · exact lt_of_le_of_lt (min_le_left _ _) (by omega)

/-- There are at most `q+1` deduplicated quantile edges. -/
theorem qcutEdges_le (q : ℕ) (vals : List ℚ) :
    (qcutEdges q vals).length ≤ q + 1 := by
  unfold qcutEdges
  refine le_trans (List.dedup_sublist _).length_le ?_
  rw [List.length_map, List.length_range]

/-- Every value of the column is at most the last sorted value. -/
theorem le_max_sorted (vals : List ℚ) (x : ℚ) (hx : x ∈ vals) :
    x ≤ (sortedQ vals).getD (vals.length - 1) 0 := by
  have hlen : (sortedQ vals).length = vals.length := (sortedQ_perm vals).length_eq
  rw [← hlen]
  exact sorted_le_getD_last _ (sortedQ_sorted vals) x
    ((sortedQ_perm vals).mem_iff.mpr hx)

/-- Every value of the column is at least the first sorted value. -/
theorem min_sorted_le (vals : List ℚ) (x : ℚ) (hx : x ∈ vals) :
    (sortedQ vals).getD 0 0 ≤ x :=
  sorted_getD_zero_le _ (sortedQ_sorted vals) x
    ((sortedQ_perm vals).mem_iff.mpr hx)

/-- The largest value is one of the quantile edges (the quantile at 1). -/
theorem max_edge_mem_qcutEdges (q : ℕ) (hq : 0 < q) (vals : List ℚ)
    (hv : vals ≠ []) :
    (sortedQ vals).getD (vals.length - 1) 0 ∈ qcutEdges q vals := by
  have hlen0 : (sortedQ vals).length = vals.length := (sortedQ_perm vals).length_eq
  have hs : sortedQ vals ≠ [] := by
    intro he
    apply hv
    apply List.length_eq_zero.mp
    rw [← hlen0, he]
    rfl
  unfold qcutEdges
  rw [List.mem_dedup]
  apply List.mem_map.mpr
  refine ⟨q, List.mem_range.mpr (Nat.lt_succ_self q), ?_⟩
  rw [div_self (Nat.cast_ne_zero.mpr (by omega)), quantileAt_one _ hs, hlen0]

/-- The smallest value is one of the quantile edges (the quantile at 0). -/
theorem min_edge_mem_qcutEdges (q : ℕ) (vals : List ℚ) :
    (sortedQ vals).getD 0 0 ∈ qcutEdges q vals := by
  unfold qcutEdges
  rw [List.mem_dedup]
  apply List.mem_map.mpr
  refine ⟨0, List.mem_range.mpr (Nat.succ_pos q), ?_⟩
  rw [Nat.cast_zero, zero_div, quantileAt_zero]

/-- A bin index against at most `q+1` edges, one of which bounds the value
from above, stays below `q`. -/
theorem binCode_lt (edges : List ℚ) (x e : ℚ) (he : e ∈ edges) (hxe : x ≤ e)
    (q : ℕ) (hq : 0 < q) (hlen : edges.length ≤ q + 1) :
    binCode edges x < q := by
  unfold binCode
  have hflt : (edges.filter (fun e2 => decide (e2 < x))).length < edges.length :=
    List.length_filter_lt_length_iff_exists.mpr
      ⟨e, he, by simp [not_lt.mpr hxe]⟩
  omega

/-- A list whose deduplication has two entries has two distinct members. -/
theorem two_distinct_of_dedup (l : List ℚ) (h : 2 ≤ l.dedup.length) :
    ∃ a ∈ l, ∃ b ∈ l, a ≠ b := by
  cases hd : l.dedup with
  | nil => rw [hd] at h; simp at h
  | cons a rest =>
    cases rest with
    | nil => rw [hd] at h; simp at h
    | cons b rest2 =>
      have hnd := List.nodup_dedup l
      rw [hd] at hnd
      have hab : a ≠ b := by
        intro he
        exact (List.nodup_cons.mp hnd).1 (he ▸ List.mem_cons_self _ _)
      refine ⟨a, ?_, b, ?_, hab⟩
      · apply List.mem_dedup.mp
        rw [hd]
        exact List.mem_cons_self _ _
      · apply List.mem_dedup.mp
        rw [hd]
        exact List.mem_cons_of_mem _ (List.mem_cons_self _ _)

/-- Two distinct members force length at least two. -/
theorem two_le_length_of_two_mem {α : Type} (l : List α) (a b : α)
    (ha : a ∈ l) (hb : b ∈ l) (hab : a ≠ b) : 2 ≤ l.length := by
  cases l with
  | nil => cases ha
  | cons x xs =>
    cases xs with
    | nil =>
      rcases List.mem_singleton.mp ha with rfl
      rcases List.mem_singleton.mp hb with rfl
      exact absurd rfl hab
    | cons y ys => simp [List.length_cons]

/-- Equal-width binning succeeds on a numeric column with a value, and its
codes stay below the bin count. -/
theorem cutCells_ok (bins : ℕ) (hb : 0 < bins) (cells : List Cell)
    (hnz : 0 < (colNums cells).length) :
    cutCells bins cells = .ok (cells.map (fun x => match x with
      | Cell.num v => Cell.num
          ((cutCode (minQ (colNums cells)) (maxQ (colNums cells)) bins v : ℕ) : ℚ)
      | _ => Cell.null)) ∧
    ∀ x ∈ cells.map (fun x => match x with
      | Cell.num v => Cell.num
          ((cutCode (minQ (colNums cells)) (maxQ (colNums cells)) bins v : ℕ) : ℚ)
      | _ => Cell.null), x = Cell.null ∨ ∃ k : ℕ, k < bins ∧ x = Cell.num k := by
  have hb0 : (bins == 0) = false := beq_eq_false_iff_ne.mpr (by omega)
  have hlen : ((colNums cells).length == 0) = false :=
    beq_eq_false_iff_ne.mpr (by omega)
  constructor
  · simp only [cutCells, hb0, hlen, Bool.false_eq_true, if_false]
  · intro x hx
    rcases List.mem_map.mp hx with ⟨c, hc, rfl⟩
    cases c with
    | num v =>
      exact Or.inr ⟨cutCode (minQ (colNums cells)) (maxQ (colNums cells)) bins v,
        cutCode_lt _ _ _ hb v, rfl⟩
    | str s => exact Or.inl rfl
    | time t2 => exact Or.inl rfl
    | null => exact Or.inl rfl

/-- Equal-frequency binning with duplicate-dropping succeeds whenever the
column has at least two distinct non-null values, and its codes stay below
the requested bin count. -/
theorem qcutCells_ok (q : ℕ) (hq : 0 < q) (cells : List Cell)
    (h2 : 2 ≤ (colNums cells).dedup.length) :
    qcutCells q cells = .ok (cells.map (fun x => match x with
      | Cell.num v => Cell.num ((binCode (qcutEdges q (colNums cells)) v : ℕ) : ℚ)
      | _ => Cell.null)) ∧
    ∀ x ∈ cells.map (fun x => match x with
      | Cell.num v => Cell.num ((binCode (qcutEdges q (colNums cells)) v : ℕ) : ℚ)
      | _ => Cell.null), x = Cell.null ∨ ∃ k : ℕ, k < q ∧ x = Cell.num k := by
  have hvne : colNums cells ≠ [] := by
    intro he
    rw [he] at h2
    simp at h2
  have hq0 : (q == 0) = false := beq_eq_false_iff_ne.mpr (by omega)
  have hlen : ((colNums cells).length == 0) = false := by
    refine beq_eq_false_iff_ne.mpr ?_
    intro he
    exact hvne (List.length_eq_zero.mp he)
  obtain ⟨a, ha, b, hb, hab⟩ := two_distinct_of_dedup _ h2
  have hminmax : (sortedQ (colNums cells)).getD 0 0
      ≠ (sortedQ (colNums cells)).getD ((colNums cells).length - 1) 0 := by
    intro he
    apply hab
    have h1 := min_sorted_le (colNums cells) a ha
    have h2b := le_max_sorted (colNums cells) a ha
    have h3 := min_sorted_le (colNums cells) b hb
    have h4 := le_max_sorted (colNums cells) b hb
    rw [← he] at h2b h4
    rw [le_antisymm h2b h1, le_antisymm h4 h3]
  have hedge2 : 2 ≤ (qcutEdges q (colNums cells)).length :=
    two_le_length_of_two_mem _ _ _ (min_edge_mem_qcutEdges q (colNums cells))
      (max_edge_mem_qcutEdges q hq (colNums cells) hvne) hminmax
  have hiflen : ¬ ((qcutEdges q (colNums cells)).length < 2) := by omega
  constructor
  · simp only [qcutCells, hq0, hlen, Bool.false_eq_true, if_false,
      if_neg hiflen]
  · intro x hx
    rcases List.mem_map.mp hx with ⟨c, hc, rfl⟩
    cases c with
    | num v =>
      refine Or.inr ⟨binCode (qcutEdges q (colNums cells)) v, ?_, rfl⟩
      refine binCode_lt _ v _ (max_edge_mem_qcutEdges q hq (colNums cells) hvne)
        ?_ q hq (qcutEdges_le q (colNums cells))
      exact le_max_sorted (colNums cells) v
        (List.mem_filterMap.mpr ⟨Cell.num v, hc, rfl⟩)
    | str s => exact Or.inl rfl
    | time t2 => exact Or.inl rfl
    | null => exact Or.inl rfl

/-- C5 amended: on a table without a `<column>_bins` column yet, discretize
with 5 bins on a numeric column (non-empty; for equal-frequency with at
least two distinct values) appends exactly one new column named
`<column>_bins` whose non-null values are integers below 5, leaving every
existing column untouched. -/
theorem disc5_appends_bins_col (t : Table) (cn : String) (col : Column)
    (strat : DiscStrat) (hcol : t.getCol cn = some col)
    (hdt : col.dtype = .numeric) (hfresh : (cn ++ "_bins") ∉ t.names)
    (hs : match strat with
      | DiscStrat.uniform => 0 < (colNums col.cells).length
      | DiscStrat.quantile => 2 ≤ (colNums col.cells).dedup.length) :
    ∃ newCells,
      applyAction (.applyDisc (some cn) (some 5) strat) t =
        .ok (⟨t.cols ++ [⟨cn ++ "_bins", .numeric, newCells⟩]⟩,
          "Binned " ++ cn) ∧
      ∀ x ∈ newCells, x = Cell.null ∨ ∃ k : ℕ, k < 5 ∧ x = Cell.num k := by
  have hname : col.name = cn := getCol_name hcol
  have hopt : getColOpt t (some cn) = .ok col := by
    simp only [getColOpt, hcol]
  have hdb : (!(col.dtype == DType.numeric)) = false := by
    rw [hdt]
    rfl
  cases strat with
  | uniform =>
    obtain ⟨hok, hrange⟩ := cutCells_ok 5 (by omega) col.cells hs
    refine ⟨_, ?_, hrange⟩
    simp only [applyAction, discStep, hopt, hdb, Bool.false_eq_true, if_false,
      hok, Table.setCol, hname, if_neg hfresh]
  | quantile =>
    obtain ⟨hok, hrange⟩ := qcutCells_ok 5 (by omega) col.cells hs
    refine ⟨_, ?_, hrange⟩
    simp only [applyAction, discStep, hopt, hdb, Bool.false_eq_true, if_false,
      hok, Table.setCol, hname, if_neg hfresh]

/-- Fresh copy of the example table for the C5 witness. -/
def tDiscExample : Table :=
  ⟨[⟨"A", .numeric, [.num 0, .null, .num 10]⟩]⟩

/-- Witness for the discretize theorem: uniform 5-binning of a fresh column
appends `A_bins`. -/
theorem disc5_appends_bins_col_witness :
    ∃ newCells,
      applyAction (.applyDisc (some "A") (some 5) .uniform) tDiscExample =
        .ok (⟨tDiscExample.cols ++ [⟨"A" ++ "_bins", .numeric, newCells⟩]⟩,
          "Binned " ++ "A") ∧
      ∀ x ∈ newCells, x = Cell.null ∨ ∃ k : ℕ, k < 5 ∧ x = Cell.num k :=
  disc5_appends_bins_col tDiscExample "A"
    ⟨"A", .numeric, [.num 0, .null, .num 10]⟩ .uniform (by decide) rfl
    (by decide) (by decide)

/-- C6 amended: with `duplicates='drop'`, equal-frequency discretize
succeeds on a numeric column having at least two distinct values even when
they are fewer than the requested bins. -/
theorem qcut_succeeds_below_bins (t : Table) (cn : String) (col : Column)
    (bins : ℕ) (hcol : t.getCol cn = some col) (hdt : col.dtype = .numeric)
    (h2 : 2 ≤ (colNums col.cells).dedup.length)
    (hlt : (colNums col.cells).dedup.length < bins) :
    ∃ p, applyAction (.applyDisc (some cn) (some bins) .quantile) t =
      .ok p := by
  have hopt : getColOpt t (some cn) = .ok col := by
    simp only [getColOpt, hcol]
  have hdb : (!(col.dtype == DType.numeric)) = false := by
    rw [hdt]
    rfl
  obtain ⟨hok, _⟩ := qcutCells_ok bins (by omega) col.cells h2
  refine ⟨(t.setCol (col.name ++ "_bins") .numeric
      (col.cells.map (fun x => match x with
        | Cell.num v =>
          Cell.num ((binCode (qcutEdges bins (colNums col.cells)) v : ℕ) : ℚ)
        | _ => Cell.null)), "Binned " ++ col.name), ?_⟩
  simp only [applyAction, discStep, hopt, hdb, Bool.false_eq_true, if_false,
    hok]

/-- Witness: equal-frequency 5-binning succeeds on a column with only two
distinct values. -/
theorem qcut_succeeds_below_bins_witness :
    ∃ p, applyAction (.applyDisc (some "A") (some 5) .quantile) tTwoDistinct =
      .ok p :=
  qcut_succeeds_below_bins tTwoDistinct "A"
    ⟨"A", .numeric, [.num 1, .num 1, .num 2, .num 2]⟩ 5 (by decide) rfl
    (by decide) (by decide)

/-- C8: splitting a 100-row table at test fraction 0.2 exports an 80-row
train selection and a 20-row test selection; the selected index lists
partition `range 100` exactly (every original row lands in exactly one
side, no overlap), and they are the same fixed lists for every 100-row
table — the fixed seed makes the partition reproducible. -/
theorem split_100_rows (sn : Snap) (target : String) (htr : target ≠ "")
    (h100 : (parse_data sn).rowCount = 100) :
    handle_downloads .applySplit (some sn) (some target) (1 / 5) =
      ⟨none,
       some ⟨"train.csv", (parse_data sn).selectRows (splitIdx 42 100 20).1⟩,
       some ⟨"test.csv", (parse_data sn).selectRows (splitIdx 42 100 20).2⟩⟩ ∧
    (splitIdx 42 100 20).1.length = 80 ∧
    (splitIdx 42 100 20).2.length = 20 ∧
    ((splitIdx 42 100 20).1 ++ (splitIdx 42 100 20).2).Perm
      (List.range 100) := by
  have htb : truthyOpt (some target) = true := by
    show (!(target == "")) = true
    rw [beq_eq_false_iff_ne.mpr htr]
    rfl
  have hnt : nTestOf (1 / 5) 100 = 20 := by decide
  have hsplit : train_test_split (parse_data sn) (1 / 5) 42 =
      .ok ((parse_data sn).selectRows (splitIdx 42 100 20).1,
           (parse_data sn).selectRows (splitIdx 42 100 20).2) := by
    simp only [train_test_split, h100, hnt]
    rw [if_neg (by norm_num)]
    rw [if_neg (by decide)]
  refine ⟨?_, by decide, by decide, ?_⟩
  · simp only [handle_downloads, htb, Bool.not_true, Bool.false_eq_true,
      if_false, hsplit]
  · unfold splitIdx
    refine List.perm_append_comm.trans ?_
    rw [List.take_append_drop]
    exact List.rotate_perm _ _

/-- A 100-row single-column snapshot. -/
def snap100 : Snap :=
  ⟨["A"], (List.range 100).map (fun i : ℕ => ([JVal.jnum (i : ℚ)] : List JVal))⟩

/-- Witness for the split theorem on a concrete 100-row snapshot. -/
theorem split_100_rows_witness :
    handle_downloads .applySplit (some snap100) (some "Y") (1 / 5) =
      ⟨none,
       some ⟨"train.csv", (parse_data snap100).selectRows (splitIdx 42 100 20).1⟩,
       some ⟨"test.csv", (parse_data snap100).selectRows (splitIdx 42 100 20).2⟩⟩ ∧
    (splitIdx 42 100 20).1.length = 80 := by
  have h := split_100_rows snap100 "Y" (by decide) (by decide)
  exact ⟨h.1, h.2.1⟩

/-- Is a cell's value unchanged by `to_json`'s 10-decimal-place rounding? -/
def roundStable : Cell → Bool
  | .num q => roundDP10 q == q
  | _ => true

/-- Columns whose snapshot round-trip is exact: the (lower-cased) name does
not trigger the default date-conversion heuristic, every value survives
`to_json`'s `double_precision=10` rounding, and the column is numeric, or
is text containing at least one non-null cell that the float cast rejects
(otherwise `read_json` re-infers a numeric dtype). -/
def codecStable (c : Column) : Prop :=
  dateLikeName c.name = false ∧
  (∀ x ∈ c.cells, roundStable x = true) ∧
  (c.dtype = .numeric ∨
    (c.dtype = .text ∧ ∃ x ∈ c.cells, (match x with
      | Cell.str s => !(floatCastable s)
      | _ => false) = true))

instance (c : Column) : Decidable (codecStable c) := by
  unfold codecStable
  infer_instance

/-- One stable column decodes from its own encoding unchanged. -/
theorem mkCol_roundtrip (c : Column) (hst : codecStable c)
    (hcells : ∀ x ∈ c.cells, x.matchesDType c.dtype) :
    mkCol c.name (c.cells.map encodeCell) = c := by
  obtain ⟨nm, dt, cells⟩ := c
  obtain ⟨hdate, hround, hrest⟩ := hst
  have hbranch1 :
      (dateLikeName nm && (cells.map encodeCell).all jIsIsoOrNull) = false := by
    rw [show dateLikeName (Column.mk nm dt cells).name = dateLikeName nm
      from rfl] at hdate
    rw [hdate]
    rfl
  rcases hrest with hnum | ⟨htext, x0, hx0, hs0⟩
  · have hnum2 : dt = DType.numeric := hnum
    subst hnum2
    have hall : ((cells.map encodeCell).all jIsNumOrNull) = true := by
      rw [List.all_eq_true]
      intro j hj
      rcases List.mem_map.mp hj with ⟨x, hx, rfl⟩
      have hm := hcells x hx
      cases x with
      | num q => rfl
      | null => rfl
      | str s => exact absurd hm (by simp [Cell.matchesDType])
      | time t2 => exact absurd hm (by simp [Cell.matchesDType])
    have hcellsrt : (cells.map encodeCell).map decodeNumCell = cells := by
      rw [List.map_map]
      refine (List.map_congr_left ?_).trans (List.map_id _)
      intro x hx
      have hm := hcells x hx
      cases x with
      | num q =>
        have hr : (roundDP10 q == q) = true := hround (Cell.num q) hx
        show Cell.num (roundDP10 q) = Cell.num q
        rw [beq_iff_eq.mp hr]
      | null => rfl
      | str s => exact absurd hm (by simp [Cell.matchesDType])
      | time t2 => exact absurd hm (by simp [Cell.matchesDType])
    unfold mkCol
    simp only [hbranch1, Bool.false_eq_true, if_false, hall, if_true,
      hcellsrt]
  · have htext2 : dt = DType.text := htext
    subst htext2
    obtain ⟨s0, rfl, hs0b⟩ : ∃ s, x0 = Cell.str s ∧ floatCastable s = false := by
      cases x0 with
      | str s =>
        refine ⟨s, rfl, ?_⟩
        replace hs0 : (floatCastable s).not = true := hs0
        cases hfc : floatCastable s
        · rfl
        · rw [hfc] at hs0
          cases hs0
      | num q => cases hs0
      | time t2 => cases hs0
      | null => cases hs0
    have hjmem : JVal.jstr s0 ∈ cells.map encodeCell :=
      List.mem_map.mpr ⟨Cell.str s0, hx0, rfl⟩
    have hb2 : ((cells.map encodeCell).all jIsNumOrNull) = false := by
      cases hall : (cells.map encodeCell).all jIsNumOrNull
      · rfl
      · have := List.all_eq_true.mp hall _ hjmem
        cases this
    have hpf : (parseFloatCell s0).isSome = false := by
      have h1 := hs0b
      unfold floatCastable at h1
      exact (Bool.or_eq_false_iff.mp (Bool.or_eq_false_iff.mp h1).1).1
    have hb3 : ((cells.map encodeCell).all jIsFloatStrOrNull) = false := by
      cases hall : (cells.map encodeCell).all jIsFloatStrOrNull
      · rfl
      · have h2 := List.all_eq_true.mp hall _ hjmem
        rw [show jIsFloatStrOrNull (JVal.jstr s0) = (parseFloatCell s0).isSome
          from rfl, hpf] at h2
        cases h2
    have hcellsrt : (cells.map encodeCell).map decodeObjCell = cells := by
      rw [List.map_map]
      refine (List.map_congr_left ?_).trans (List.map_id _)
      intro x hx
      have hm := hcells x hx
      cases x with
      | str s => rfl
      | null => rfl
      | num q => exact absurd hm (by simp [Cell.matchesDType])
      | time t2 => exact absurd hm (by simp [Cell.matchesDType])
    unfold mkCol
    simp only [hbranch1, Bool.false_eq_true, if_false, hb2, hb3, hcellsrt]

/-- C2 amended: the snapshot codec round-trips exactly on every well-formed
table all of whose columns are `codecStable`. -/
theorem roundtrip_exact_on_stable (t : Table) (hw : t.WF)
    (hst : ∀ c ∈ t.cols, codecStable c) :
    parse_data (encodeSnap t) = t := by
  have hnames : ∀ j, j < t.cols.length →
      (encodeSnap t).columns.getD j ""
        = (t.cols.getD j ⟨"", .text, []⟩).name := by
    intro j hj
    show (t.cols.map (fun c => c.name)).getD j "" = _
    exact getD_map_lt _ _ _ hj _ _
  have hdata : ∀ j, j < t.cols.length →
      (encodeSnap t).data.map (fun row => row.getD j JVal.jnull)
        = (t.cols.getD j ⟨"", .text, []⟩).cells.map encodeCell := by
    intro j hj
    have hcellslen : (t.cols.getD j ⟨"", .text, []⟩).cells.length = t.rowCount :=
      (hw _ (getD_mem_of_lt _ _ hj _)).1
    show ((List.range t.rowCount).map (fun i =>
      t.cols.map (fun c => encodeCell (c.cells.getD i Cell.null)))).map
        (fun row => row.getD j JVal.jnull) = _
    rw [List.map_map]
    calc (List.range t.rowCount).map ((fun row => row.getD j JVal.jnull)
            ∘ fun i => t.cols.map (fun c => encodeCell (c.cells.getD i Cell.null)))
        = (List.range t.rowCount).map (fun i =>
            encodeCell ((t.cols.getD j ⟨"", .text, []⟩).cells.getD i Cell.null)) := by
          apply List.map_congr_left
          intro i hi
          show (t.cols.map
            (fun c => encodeCell (c.cells.getD i Cell.null))).getD j JVal.jnull = _
          rw [getD_map_lt _ _ _ hj _ ⟨"", .text, []⟩]
      _ = (t.cols.getD j ⟨"", .text, []⟩).cells.map encodeCell := by
          rw [← hcellslen]
          exact range_map_getD _ Cell.null encodeCell
  have heta : (⟨t.cols⟩ : Table) = t := rfl
  rw [← heta]
  unfold parse_data
  congr 1
  have hlen2 : (encodeSnap t).columns.length = t.cols.length := by
    show (t.cols.map (fun c => c.name)).length = _
    rw [List.length_map]
  rw [hlen2]
  conv_rhs => rw [← range_map_getD_self t.cols ⟨"", .text, []⟩]
  apply List.map_congr_left
  intro j hj
  have hjlt : j < t.cols.length := List.mem_range.mp hj
  rw [hnames j hjlt, hdata j hjlt]
  exact mkCol_roundtrip _ (hst _ (getD_mem_of_lt _ _ hjlt _))
    (fun x hx => (hw _ (getD_mem_of_lt _ _ hjlt _)).2 x hx)

/-- A stable two-column table: numeric with a null, text with a
non-castable string and a null. -/
def tStable : Table :=
  ⟨[⟨"A", .numeric, [.num 1, .null]⟩, ⟨"B", .text, [.str "x", .null]⟩]⟩

/-- Witness: the codec round-trips the stable example exactly. -/
theorem roundtrip_exact_on_stable_witness :
    parse_data (encodeSnap tStable) = tStable :=
  roundtrip_exact_on_stable tStable (by decide) (by decide)
